import Mathlib

/-!
Verification of the pretty-printer core of prettier-plugin-svelte.

The development shallowly embeds the printer in src (the node dispatcher,
the children assembler, the top-level section reorderer and the
format-suppression state) as executable Lean functions over a deep Doc IR
and a deep syntax-tree type.  Source text is modelled as a list of
characters.  Helper modules of the repository that are not part of the
given sources (node-helpers, doc-helpers, helpers, lib/elements,
options parsing, the embed sub-printers) are modelled from the spec; each
such definition carries a doc comment starting with the words Modelled
from the spec.  General recursion of the dispatcher is made structural
with an explicit fuel argument; running out of fuel is a distinguished
error value, so every theorem about actual outputs is fuel-independent or
quantified over sufficient fuel.
-/

namespace SveltePrinter

/-- JS whitespace class used by trim and by the \s regex class
(ASCII part: space, tab, newline, carriage return, vertical tab, form feed). -/
def isWSjs (c : Char) : Bool :=
  c = ' ' || c = '\t' || c = '\n' || c = '\r' || c.toNat = 11 || c.toNat = 12

/-- The character class of the word-splitting regex in splitTextToDocs:
tab, newline, form feed, carriage return, space (no vertical tab). -/
def isSplitWS (c : Char) : Bool :=
  c = '\t' || c = '\n' || c.toNat = 12 || c = '\r' || c = ' '

/-- JS String.prototype.trim over a character list. -/
def jsTrim (l : List Char) : List Char :=
  ((l.dropWhile isWSjs).reverse.dropWhile isWSjs).reverse

/-- Shorthand: the character list of a string literal. -/
def S (s : String) : List Char := s.data

/-- The document IR vocabulary used by the printer (prettier doc builders).
hardline, softline and literalline are modelled as atoms. -/
inductive Doc where
  | text (s : List Char)
  | concat (parts : List Doc)
  | line
  | softline
  | hardline
  | literalline
  | group (d : Doc)
  | indent (d : Doc)
  | dedent (d : Doc)
  | fill (parts : List Doc)
  | breakParent

/-- A string atom of the Doc IR. -/
def str (s : String) : Doc := Doc.text s.data

/-- Modelled from the spec: the groupConcat helper of the repository
(group of a concat), used pervasively by the dispatcher. -/
def groupConcat (l : List Doc) : Doc := Doc.group (Doc.concat l)

/-- The join builder of prettier: parts interleaved with a separator. -/
def joinDocs (sep : Doc) (l : List Doc) : List Doc := List.intersperse sep l

mutual
/-- Modelled from the spec: the isLine predicate of doc-helpers, true for
line-like documents (used when trimming redundant edge whitespace). -/
def isLineDoc : Doc → Bool
  | Doc.line => true
  | Doc.softline => true
  | Doc.hardline => true
  | Doc.literalline => true
  | Doc.concat parts => isLineDocList parts
  | _ => false

/-- All documents in the list are line-like. -/
def isLineDocList : List Doc → Bool
  | [] => true
  | d :: rest => isLineDoc d && isLineDocList rest
end

mutual
/-- Modelled from the spec: the isEmptyDoc predicate of doc-helpers; absent
content is a valid rendering of absent source. -/
def isEmptyDoc : Doc → Bool
  | Doc.text s => s.isEmpty
  | Doc.line => true
  | Doc.softline => true
  | Doc.hardline => true
  | Doc.literalline => true
  | Doc.concat parts => isEmptyDocList parts
  | Doc.group d => isEmptyDoc d
  | Doc.indent d => isEmptyDoc d
  | Doc.dedent d => isEmptyDoc d
  | Doc.fill parts => isEmptyDocList parts
  | Doc.breakParent => false

/-- All documents in the list are empty. -/
def isEmptyDocList : List Doc → Bool
  | [] => true
  | d :: rest => isEmptyDoc d && isEmptyDocList rest
end

mutual
/-- Modelled from the spec: trimLeft of doc-helpers, removing documents
matching the predicate from the front of a list, descending into a
leading concat. -/
def docTrimLeft (p : Doc → Bool) : List Doc → List Doc
  | [] => []
  | d :: rest =>
      if p d then docTrimLeft p rest
      else
        match docTrimHead p d with
        | Option.none => docTrimLeft p rest
        | Option.some d2 => d2 :: rest

/-- Trims inside a leading concat; none when nothing remains. -/
def docTrimHead (p : Doc → Bool) : Doc → Option Doc
  | Doc.concat parts =>
      (match docTrimLeft p parts with
       | [] => Option.none
       | parts2 => Option.some (Doc.concat parts2))
  | d => Option.some d
end

mutual
/-- Reverses a document so that right trimming can reuse left trimming. -/
def revDoc : Doc → Doc
  | Doc.concat parts => Doc.concat (revDocList parts)
  | Doc.text s => Doc.text s.reverse
  | d => d

/-- Reverses a document list, reversing each element. -/
def revDocList : List Doc → List Doc
  | [] => []
  | d :: rest => revDocList rest ++ [revDoc d]
end

/-- Modelled from the spec: trimRight of doc-helpers. -/
def docTrimRight (p : Doc → Bool) (l : List Doc) : List Doc :=
  revDocList (docTrimLeft p (revDocList l))

/-- Modelled from the spec: the trim helper of doc-helpers (both ends). -/
def docTrim (p : Doc → Bool) (l : List Doc) : List Doc :=
  docTrimRight p (docTrimLeft p l)

mutual
/-- A flat observation of a document: text atoms verbatim, collapsible
lines as one space, hard and literal lines as one newline, structure
ignored.  This is a measurement tool of the development, not code of the
repository. -/
def flatRender : Doc → List Char
  | Doc.text s => s
  | Doc.concat parts => flatRenderList parts
  | Doc.line => [' ']
  | Doc.softline => []
  | Doc.hardline => ['\n']
  | Doc.literalline => ['\n']
  | Doc.group d => flatRender d
  | Doc.indent d => flatRender d
  | Doc.dedent d => flatRender d
  | Doc.fill parts => flatRenderList parts
  | Doc.breakParent => []

/-- Flat observation of a list of documents. -/
def flatRenderList : List Doc → List Char
  | [] => []
  | d :: rest => flatRender d ++ flatRenderList rest
end

/-! ## Embedded-expression sub-trees -/

/-- Embedded script expressions.  Identifier and Literal leaves are kept
because the printer inspects them (shorthand tests, expandNode); every
other expression kind is carried together with the text the external
serializer produces for it, per the collaborator interface of spec
section 6. -/
inductive Expr where
  | ident (name : List Char)
  | literal (raw : List Char)
  | otherGen (gen : List Char)
deriving DecidableEq, Repr

/-- expandNode of the source, restricted to the expression kinds carried by
this model: null prints as nothing, an Identifier as a space plus its name,
a Literal as a space plus its raw text, anything else as the text of the
external serializer. -/
def expandNode : Option Expr → List Char
  | none => []
  | some (Expr.ident n) => ' ' :: n
  | some (Expr.literal r) => ' ' :: r
  | some (Expr.otherGen g) => g

/-- Modelled from the spec: printJS delegates embedded expressions to the
foreign-language sub-printer (spec section 6); the dispatcher itself prints
an Identifier as its name.  The quote-forcing flags only affect the
external printer and are not modelled. -/
def printExpr : Expr → Doc
  | Expr.ident n => Doc.text n
  | Expr.literal r => Doc.text r
  | Expr.otherGen g => Doc.text g

/-! ## Syntax-tree nodes -/

/-- The element-like node kinds sharing one dispatcher case. -/
inductive ElementTag where
  | element | inlineComponent | slotTag | slotTemplate | windowTag | headTag | titleTag
deriving DecidableEq, Repr

/-- The optional this-binding of element-like nodes: the expression of an
InlineComponent, or the tag of a dynamic Element (string or expression). -/
inductive ThisBinding where
  | componentExpr (e : Expr)
  | elementTagName (s : List Char)
  | elementTagExpr (e : Expr)
deriving DecidableEq, Repr

mutual
/-- A syntax-tree node: source byte offsets plus a kind. -/
inductive Node where
  | mk (start endPos : Nat) (kind : NodeKind)

/-- The tagged variants of the node taxonomy.  blockLike, inlineLike and
langSupported on element-like nodes model the block/inline classification
and supported-language test of the spec, which are configuration-dependent
utility predicates not part of the given sources; they are carried as node
data (Modelled from the spec). -/
inductive NodeKind where
  | fragment (children : List Node)
  | text (raw : List Char)
  | element (etag : ElementTag) (name : List Char)
      (blockLike inlineLike langSupported : Bool)
      (thisB : Option ThisBinding) (attributes : List Node) (children : List Node)
  | optionsTag (name : List Char) (attributes : List Node)
  | bodyTag (name : List Char) (attributes : List Node)
  | documentTag (name : List Char) (attributes : List Node)
  | attribute (name : List Char) (value : AttrValue)
  | attributeShorthand (e : Expr)
  | mustacheTag (e : Expr)
  | ifBlock (e : Expr) (children : List Node) (elseNode : Option Node)
  | elseBlock (children : List Node)
  | eachBlock (e : Expr) (ctxPat : Expr) (indexName : Option (List Char))
      (key : Option Expr) (children : List Node) (elseNode : Option Node)
  | awaitBlock (e : Expr) (value errPat : Option Expr) (pend thn ctch : Node)
  | pendingBlock (children : List Node)
  | thenBlock (children : List Node)
  | catchBlock (children : List Node)
  | keyBlock (e : Expr) (children : List Node)
  | eventHandler (name : List Char) (modifiers : List (List Char)) (e : Option Expr)
  | binding (name : List Char) (e : Expr)
  | classDirective (name : List Char) (e : Expr)
  | styleDirective (name : List Char) (modifiers : List (List Char)) (value : AttrValue)
  | letDirective (name : List Char) (e : Option Expr)
  | debugTag (idents : List (List Char))
  | refTag (name : List Char)
  | comment (data : List Char)
  | transition (name : List Char) (intro outro : Bool)
      (modifiers : List (List Char)) (e : Option Expr)
  | action (name : List Char) (e : Option Expr)
  | animation (name : List Char) (e : Option Expr)
  | rawMustacheTag (e : Expr)
  | spread (e : Expr)
  | constTag (e : Expr)
  | identifierNode (name : List Char)
  | scriptOrStyle (d : Doc)
  | unknownNode (gen : Option (List Char))

/-- An attribute value: the boolean flag of a valueless attribute, or a
list of value nodes. -/
inductive AttrValue where
  | flag
  | nodes (vals : List Node)
end

/-- Source start offset of a node. -/
def Node.start : Node → Nat
  | Node.mk s _ _ => s

/-- Source end offset of a node. -/
def Node.endPos : Node → Nat
  | Node.mk _ e _ => e

/-- The kind of a node. -/
def Node.kind : Node → NodeKind
  | Node.mk _ _ k => k

/-- The ordered child list of a node (getChildren of node-helpers,
Modelled from the spec: child lists are ordered and semantically
meaningful). -/
def childrenOf (n : Node) : List Node :=
  match n.kind with
  | NodeKind.fragment cs => cs
  | NodeKind.element _ _ _ _ _ _ _ cs => cs
  | NodeKind.ifBlock _ cs _ => cs
  | NodeKind.elseBlock cs => cs
  | NodeKind.eachBlock _ _ _ _ cs _ => cs
  | NodeKind.pendingBlock cs => cs
  | NodeKind.thenBlock cs => cs
  | NodeKind.catchBlock cs => cs
  | NodeKind.keyBlock _ cs => cs
  | _ => []

/-- The raw text of a Text node (getUnencodedText, Modelled from the spec:
raw and decoded text are identified in this model). -/
def rawTextOf (n : Node) : List Char :=
  match n.kind with
  | NodeKind.text raw => raw
  | _ => []

/-- Whether the node is a Text node. -/
def isTextNode (n : Node) : Bool :=
  match n.kind with
  | NodeKind.text _ => true
  | _ => false

/-- Modelled from the spec: a whitespace-only Text node
(isEmptyTextNode of node-helpers). -/
def isEmptyTextNode (n : Node) : Bool :=
  match n.kind with
  | NodeKind.text raw => jsTrim raw = []
  | _ => false

/-- Modelled from the spec: the ignore-next-node directive comment. -/
def isIgnoreDirective (n : Node) : Bool :=
  match n.kind with
  | NodeKind.comment data => jsTrim data = S "prettier-ignore"
  | _ => false

/-- Modelled from the spec: the ignore-range-start directive comment. -/
def isIgnoreStartDirective (n : Node) : Bool :=
  match n.kind with
  | NodeKind.comment data => jsTrim data = S "prettier-ignore-start"
  | _ => false

/-- Modelled from the spec: the ignore-range-end directive comment. -/
def isIgnoreEndDirective (n : Node) : Bool :=
  match n.kind with
  | NodeKind.comment data => jsTrim data = S "prettier-ignore-end"
  | _ => false

/-- Number of newline characters in the leading whitespace run. -/
def leadingNewlines (l : List Char) : Nat :=
  (l.takeWhile isWSjs).count '\n'

/-- Number of newline characters in the trailing whitespace run. -/
def trailingNewlines (l : List Char) : Nat :=
  (l.reverse.takeWhile isWSjs).count '\n'

/-- Modelled from the spec: the text begins with at least n newlines before
any non-whitespace character (startsWithLinebreak of node-helpers; the
spec preserves a leading hard line for one newline at the edge and a
doubled hard line for two or more). -/
def startsWithLinebreak (l : List Char) (n : Nat := 1) : Bool :=
  n ≤ leadingNewlines l

/-- Modelled from the spec: the text ends with at least n newlines after
the last non-whitespace character (endsWithLinebreak of node-helpers). -/
def endsWithLinebreak (l : List Char) (n : Nat := 1) : Bool :=
  n ≤ trailingNewlines l

/-- Modelled from the spec: Text node starting with whitespace. -/
def isTextNodeStartingWithWhitespace (n : Node) : Bool :=
  match n.kind with
  | NodeKind.text raw =>
      match raw.head? with
      | some c => isWSjs c
      | none => false
  | _ => false

/-- Modelled from the spec: Text node ending with whitespace. -/
def isTextNodeEndingWithWhitespace (n : Node) : Bool :=
  match n.kind with
  | NodeKind.text raw =>
      match raw.reverse.head? with
      | some c => isWSjs c
      | none => false
  | _ => false

/-- Modelled from the spec: Text node starting with at least n newlines. -/
def isTextNodeStartingWithLinebreak (n : Node) (k : Nat := 1) : Bool :=
  isTextNode n && startsWithLinebreak (rawTextOf n) k

/-- Modelled from the spec: Text node ending with at least n newlines. -/
def isTextNodeEndingWithLinebreak (n : Node) (k : Nat := 1) : Bool :=
  isTextNode n && endsWithLinebreak (rawTextOf n) k

/-- trimTextNodeLeft: remove leading whitespace of a Text node. -/
def trimNodeLeft : Node → Node
  | Node.mk s e (NodeKind.text raw) => Node.mk s e (NodeKind.text (raw.dropWhile isWSjs))
  | n => n

/-- trimTextNodeRight: remove trailing whitespace of a Text node. -/
def trimNodeRight : Node → Node
  | Node.mk s e (NodeKind.text raw) =>
      Node.mk s e (NodeKind.text ((raw.reverse.dropWhile isWSjs).reverse))
  | n => n

/-- Modelled from the spec: the block-like classification of a child
(isBlockElement of node-helpers); it is configuration-dependent and not
part of the given sources, so element-like nodes carry its value. -/
def isBlockElement (n : Node) : Bool :=
  match n.kind with
  | NodeKind.element _ _ blockLike _ _ _ _ _ => blockLike
  | _ => false

/-- Modelled from the spec: the inline-like classification of a child
(isInlineElement of node-helpers), carried as node data. -/
def isInlineElement (n : Node) : Bool :=
  match n.kind with
  | NodeKind.element _ _ _ inlineLike _ _ _ _ => inlineLike
  | _ => false

/-- Modelled from the spec: an attribute value that is exactly one
mustache tag (isLoneMustacheTag of node-helpers). -/
def isLoneMustacheTag : AttrValue → Bool
  | AttrValue.nodes [Node.mk _ _ (NodeKind.mustacheTag _)] => true
  | _ => false

/-- Modelled from the spec: the attribute qualifies for shorthand: its
value is already the shorthand node, or a lone mustache tag over a bare
identifier equal to the attribute name
(isOrCanBeConvertedToShorthand of node-helpers). -/
def isOrCanBeConvertedToShorthand (name : List Char) : AttrValue → Bool
  | AttrValue.nodes [Node.mk _ _ (NodeKind.attributeShorthand _)] => true
  | AttrValue.nodes [Node.mk _ _ (NodeKind.mustacheTag (Expr.ident n))] => n = name
  | _ => false

/-- Modelled from the spec: the fixed set of self-closing (void) tags of
lib/elements. -/
def selfClosingTags : List (List Char) :=
  [S "area", S "base", S "br", S "col", S "embed", S "hr", S "img", S "input",
   S "link", S "meta", S "param", S "source", S "track", S "wbr"]

/-- Modelled from the spec: the list of attributes whose text content is
re-formatted; it is empty in the repository. -/
def formattableAttributes : List (List Char) := []

/-- Modelled from the spec: an element is always-hugging when it belongs to
a small fixed set or its only content is a single interpolation
(spec section 4.3). -/
def isAlwaysHugging (n : Node) : Bool :=
  match n.kind with
  | NodeKind.element _ name _ _ _ _ _ cs =>
      selfClosingTags.elem name ||
      (match cs with
       | [Node.mk _ _ (NodeKind.mustacheTag _)] => true
       | _ => false)
  | _ => false

/-- Modelled from the spec: hug-start is true when the tag content language
is unsupported, the element is always-hugging, or the first child is not
whitespace-initiated (spec section 4.3). -/
def shouldHugStart (n : Node) (isSupportedLanguage : Bool) : Bool :=
  !isSupportedLanguage || isAlwaysHugging n ||
    (match (childrenOf n).head? with
     | some c => !isTextNodeStartingWithWhitespace c
     | none => true)

/-- Modelled from the spec: hug-end is true when the tag content language
is unsupported, the element is always-hugging, or the last child is not
whitespace-terminated (spec section 4.3). -/
def shouldHugEnd (n : Node) (isSupportedLanguage : Bool) : Bool :=
  !isSupportedLanguage || isAlwaysHugging n ||
    (match (childrenOf n).reverse.head? with
     | some c => !isTextNodeEndingWithWhitespace c
     | none => true)

/-- Modelled from the spec: the trailing soft-line before the closing tag
may be omitted when the last child is an element whose own closing tag
already forces a break (spec section 4.3). -/
def canOmitSoftlineBeforeClosingTag (n : Node) : Bool :=
  match (childrenOf n).reverse.head? with
  | some c => isBlockElement c
  | none => false

/-! ## Text splitting (splitTextToDocs) -/

/-- The word-splitting of JS String.split on one-or-more whitespace
characters: maximal whitespace runs are separators, and a leading or
trailing run contributes an empty element, exactly as in JS. -/
def splitWS : List Char → List (List Char)
  | [] => [[]]
  | c :: rest =>
      if isSplitWS c then
        match rest.head? with
        | some d => if isSplitWS d then splitWS rest else [] :: splitWS rest
        | none => [] :: splitWS rest
      else
        match splitWS rest with
        | [] => [[c]]
        | w :: ws => (c :: w) :: ws

/-- splitTextToDocs of the source: split the text into words separated by
single collapsible lines, then preserve a leading or trailing hard line
when the source had one newline at that edge, doubling it when it had two
or more. -/
def splitTextToDocs (text : List Char) : List Doc :=
  let docs0 := (splitWS text).map Doc.text
  let docs1 := (joinDocs Doc.line docs0).filter fun d =>
    match d with
    | Doc.text [] => false
    | _ => true
  let docs2 := if startsWithLinebreak text then docs1.set 0 Doc.hardline else docs1
  let docs3 := if startsWithLinebreak text 2 then Doc.hardline :: docs2 else docs2
  let docs4 := if endsWithLinebreak text then docs3.set (docs3.length - 1) Doc.hardline else docs3
  if endsWithLinebreak text 2 then docs4 ++ [Doc.hardline] else docs4

/-! ## The empty-text regular expressions -/

/-- Whitespace characters followed by a newline: the backtracking search
done by the tail of the two-newline regular expression. -/
def wsThenNewline : List Char → Bool
  | [] => false
  | c :: rest => if c = '\n' then true else if isWSjs c then wsThenNewline rest else false

/-- The test of the regular expression matching a newline, optional
whitespace, then another newline (hasTwoOrMoreNewlines in the Text case of
the dispatcher). -/
def hasTwoNewlines : List Char → Bool
  | [] => false
  | c :: rest => (c = '\n' && wsThenNewline rest) || hasTwoNewlines rest

/-! ## Configuration, global state, context -/

/-- The four top-level section kinds of the sort order. -/
inductive SortOrderPart where
  | options | scripts | markup | styles
deriving DecidableEq, Repr

/-- Modelled from the spec: the parsed sort-order configuration: either
none (interleave in source order) or an ordered list of section kinds. -/
inductive SvelteSortOrder where
  | none
  | order (parts : List SortOrderPart)
deriving DecidableEq, Repr

/-- Modelled from the spec: parseSortOrder of the options module; the
configuration is carried already parsed. -/
def parseSortOrder : SvelteSortOrder → List SortOrderPart
  | SvelteSortOrder.none => []
  | SvelteSortOrder.order parts => parts

/-- The recognized configuration surface of the printer. -/
structure Options where
  sortOrder : SvelteSortOrder
  strictMode : Bool
  allowShorthand : Bool
  bracketSameLine : Bool
  insertPragma : Bool
  parentParserIsMarkdown : Bool
  originalText : List Char

/-- The process-wide format-suppression state and the pending
options-section document. -/
structure GState where
  ignoreNext : Bool
  ignoreRange : Bool
  svelteOptionsDoc : Option Doc

/-- The classification of the parent node that the dispatcher consults. -/
inductive ParentTag where
  | eachBlockParent | attributeParent | otherParent
deriving DecidableEq, Repr

/-- The structural-path facts the dispatcher reads from the host recursion
facility: pre-content, parent kind, top-level position, the start offsets
of the extracted script/style sections, and the following siblings used by
the comment case. -/
structure Ctx where
  insidePre : Bool
  parentTag : ParentTag
  topLevel : Bool
  childrenTopLevel : Bool
  embedStarts : List Nat
  nextSibling : Option Node
  nextNextStart : Option Nat

/-- The context of a freshly entered child list with no sibling info. -/
def Ctx.base : Ctx :=
  { insidePre := false, parentTag := ParentTag.otherParent, topLevel := false,
    childrenTopLevel := false, embedStarts := [], nextSibling := Option.none,
    nextNextStart := Option.none }

/-- Errors of one print invocation: a thrown Error with its message, or
exhaustion of the explicit fuel of this embedding. -/
inductive PrintErr where
  | message (s : List Char)
  | outOfFuel
deriving DecidableEq, Repr

/-- JS String.prototype.slice with start and end offsets. -/
def sliceText (l : List Char) (a b : Nat) : List Char :=
  (l.drop a).take (b - a)

/-- The mapping done while suppression is active: the source slice split on
newlines and re-joined with literal line breaks (map with index, then
flatten, as in the source). -/
def verbatimParts (ls : List (List Char)) : List Doc :=
  (ls.enum.map fun p => if p.1 = 0 then [Doc.text p.2] else [Doc.literalline, Doc.text p.2]).flatten

/-- The document emitted for a suppressed node: the original source text
from its start offset to its end offset, verbatim. -/
def printIgnoredDoc (opts : Options) (n : Node) : Doc :=
  Doc.concat (verbatimParts ((sliceText opts.originalText n.start n.endPos).splitOn '\n'))

/-- The gate of the format-suppression state machine, read at node entry:
suppression applies when ignoreNext is set, or a range is active and the
node is not the range-end directive, and the node is not a whitespace-only
Text node. -/
def suppressionApplies (st : GState) (n : Node) : Bool :=
  (st.ignoreNext || (st.ignoreRange && !isIgnoreEndDirective n)) &&
    (!isTextNode n || !isEmptyTextNode n)

/-- Modelled from the spec: doesEmbedStartAfterNode of node-helpers; an
extracted script/style section used to start at or after the given end
offset, before the next sibling. -/
def doesEmbedStartAfter (endPos : Nat) (nextStart : Option Nat) (embedStarts : List Nat) : Bool :=
  embedStarts.any fun s =>
    endPos ≤ s &&
      (match nextStart with
       | Option.none => true
       | Option.some ns => s ≤ ns)

/-- hasPragma of the source: the regular expression matching optional
whitespace, a comment opener, optional whitespace, an at-sign, the word
format or prettier, then a non-word character. -/
def hasPragma (l : List Char) : Bool :=
  let l1 := l.dropWhile isWSjs
  if (S "<!--").isPrefixOf l1 then
    let l2 := (l1.drop 4).dropWhile isWSjs
    match l2 with
    | '@' :: l3 =>
        let afterWord : Option (List Char) :=
          if (S "format").isPrefixOf l3 then Option.some (l3.drop 6)
          else if (S "prettier").isPrefixOf l3 then Option.some (l3.drop 8)
          else Option.none
        match afterWord with
        | Option.some (c :: _) => !(c.isAlphanum || c = '_')
        | _ => false
    | _ => false
  else false

/-! ## Small document builders shared by the dispatcher cases -/

/-- The opening quote-brace pair around an embedded expression: literal
brace, or quote plus brace in strict mode. -/
def jsQuoteOpen (strict : Bool) : Doc :=
  if strict then str "\"\x7b" else str "\x7b"

/-- The closing brace-quote pair around an embedded expression. -/
def jsQuoteClose (strict : Bool) : Doc :=
  if strict then str "\x7d\"" else str "\x7d"

/-- printJsExpression of the source: open, expression, close. -/
def jsExprDocs (strict : Bool) (e : Expr) : List Doc :=
  [jsQuoteOpen strict, printExpr e, jsQuoteClose strict]

/-- The modifier chain of a directive: bar plus bar-joined modifiers in
declared order, or nothing. -/
def modifiersDoc (mods : List (List Char)) : Doc :=
  if mods.length ≠ 0 then
    Doc.concat [str "|", Doc.concat (joinDocs (str "|") (mods.map Doc.text))]
  else str ""

/-- The optional equals-expression tail of a directive. -/
def exprEqPart (strict : Bool) (e : Option Expr) : Doc :=
  match e with
  | Option.some ex => Doc.concat (str "=" :: jsExprDocs strict ex)
  | Option.none => str ""

/-- The full closing tag of an element. -/
def closeTag (name : List Char) : Doc := Doc.text (S "</" ++ name ++ S ">")

/-- The closing tag of an element without its final angle bracket. -/
def closeTagOpen (name : List Char) : Doc := Doc.text (S "</" ++ name)

/-- Modelled from the spec: getAttributeLine of helpers, the separator
before an attribute. -/
def attributeLine : Doc := Doc.line

/-- Modelled from the spec: printWithPrependedAttributeLine of helpers,
prepending the attribute separator to each printed attribute. -/
def prependAttrLine (ds : List Doc) : List Doc :=
  ds.map fun d => Doc.concat [attributeLine, d]

/-- The self-closing tag shape of the element case. -/
def selfCloseDoc (name : List Char) (thisB : Doc) (attrs : List Doc)
    (bracketSameLine isDoctypeTag : Bool) : Doc :=
  groupConcat [str "<", Doc.text name,
    Doc.indent (groupConcat
      (thisB :: attrs ++ [if bracketSameLine || isDoctypeTag then str "" else Doc.dedent Doc.line])),
    Doc.text (if bracketSameLine && !isDoctypeTag then S " " else []),
    Doc.text (if isDoctypeTag then S ">" else S "/>")]

/-- The self-closing tag shape of the Options, Body and Document cases. -/
def voidTagDoc (name : List Char) (attrs : List Doc) (bracketSameLine : Bool) : Doc :=
  groupConcat [str "<", Doc.text name,
    Doc.indent (groupConcat (attrs ++ [if bracketSameLine then str "" else Doc.dedent Doc.line])),
    Doc.text (if bracketSameLine then S " " else []),
    str "/>"]

/-- printComment of the source; snipped embedded content is not
representable in this model, so unsnipping is the identity (Modelled from
the spec). -/
def printCommentDoc (data : List Char) : Doc :=
  groupConcat [str "<!--", Doc.text data, str "-->"]

/-- Strips one trailing carriage return. -/
def stripCR (l : List Char) : List Char :=
  match l.reverse with
  | '\r' :: r => r.reverse
  | _ => l

/-- replaceEndOfLineWith of helpers (Modelled from the spec): split the
text on newlines, strip a trailing carriage return of each piece and join
with the replacement document. -/
def replaceEndOfLineWith (l : List Char) (rep : Doc) : List Doc :=
  joinDocs rep (((l.splitOn '\n').map stripCR).map Doc.text)

/-- Modelled from the spec: printRaw of node-helpers; the raw source text
spanned by the children of an unsupported-language element, with the
framing newline at each edge removed when requested. -/
def printRawText (originalText : List Char) (children : List Node)
    (stripLeadingAndTrailingNewline : Bool) : Doc :=
  match children.head?, children.reverse.head? with
  | Option.some first, Option.some last =>
      let raw0 := sliceText originalText first.start last.endPos
      if !stripLeadingAndTrailingNewline then Doc.text raw0
      else
        let raw1 := if startsWithLinebreak raw0 then (raw0.dropWhile (· ≠ '\n')).drop 1 else raw0
        let raw2 :=
          if endsWithLinebreak raw1 then ((raw1.reverse.dropWhile (· ≠ '\n')).drop 1).reverse
          else raw1
        Doc.text raw2
  | _, _ => str ""

/-- Modelled from the spec: trimChildren of node-helpers; redundant
leading and trailing whitespace-only text children are removed and the
edge text nodes are trimmed. -/
def trimChildrenF (children : List Node) : List Node :=
  let l1 := children.dropWhile isEmptyTextNode
  let l2 := (l1.reverse.dropWhile isEmptyTextNode).reverse
  ((l2.modifyHead trimNodeLeft).reverse.modifyHead trimNodeRight).reverse

/-- The three whitespace classes at a Svelte block edge. -/
inductive BlockWS where
  | wsNone | wsSpace | wsLine
deriving DecidableEq, Repr

/-- Modelled from the spec: checkWhitespaceAtStartOfSvelteBlock of
node-helpers, read off the first child (the additional raw-source scan of
the helper is not modelled). -/
def checkWhitespaceAtStartOfSvelteBlock (children : List Node) : BlockWS :=
  match children.head? with
  | Option.none => BlockWS.wsNone
  | Option.some c =>
      if isTextNodeStartingWithLinebreak c then BlockWS.wsLine
      else if isTextNodeStartingWithWhitespace c then BlockWS.wsSpace
      else BlockWS.wsNone

/-- Modelled from the spec: checkWhitespaceAtEndOfSvelteBlock of
node-helpers, read off the last child. -/
def checkWhitespaceAtEndOfSvelteBlock (children : List Node) : BlockWS :=
  match children.reverse.head? with
  | Option.none => BlockWS.wsNone
  | Option.some c =>
      if isTextNodeEndingWithLinebreak c then BlockWS.wsLine
      else if isTextNodeEndingWithWhitespace c then BlockWS.wsSpace
      else BlockWS.wsNone

/-- Builds the context of a child list: pre-content flag, parent
classification and whether the children are top-level html. -/
def childBase (ctx : Ctx) (pre : Bool) (ptag : ParentTag) (tl : Bool) : Ctx :=
  { insidePre := pre, parentTag := ptag, topLevel := tl, childrenTopLevel := false,
    embedStarts := ctx.embedStarts, nextSibling := Option.none, nextNextStart := Option.none }

/-- prepareChildren pass two: adjacent Text children left behind by removed
nodes are merged pairwise, preserving combined raw content. -/
def mergeTexts : List Node → List Node
  | Node.mk s e (NodeKind.text r1) :: Node.mk _ _ (NodeKind.text r2) :: rest =>
      Node.mk s e (NodeKind.text (r1 ++ r2)) :: mergeTexts rest
  | c :: rest => c :: mergeTexts rest
  | [] => []

/-- isCommentFollowedByOptions of prepareChildren: a non-directive comment
whose next (or next-after-whitespace) sibling is the options node. -/
def isCommentFollowedByOptions (n : Node) (rest : List Node) : Bool :=
  match n.kind with
  | NodeKind.comment _ =>
      if isIgnoreEndDirective n || isIgnoreStartDirective n then false
      else
        match rest with
        | [] => false
        | nxt :: rest2 =>
            if isEmptyTextNode nxt then
              match rest2 with
              | Node.mk _ _ (NodeKind.optionsTag _ _) :: _ => true
              | _ => false
            else
              match nxt.kind with
              | NodeKind.optionsTag _ _ => true
              | _ => false
  | _ => false

/-! ## Pure per-case builders of the dispatcher -/

/-- The Text case of the dispatcher: empty-text collapse or word fill
outside pre content; raw text (with literal line breaks when directly
inside an attribute value) inside pre content.  The class-attribute
whitespace cleanup of the source is not modelled; no claim concerns it. -/
def textCase (ctx : Ctx) (raw : List Char) : Doc :=
  if !ctx.insidePre then
    if jsTrim raw = [] then
      if hasTwoNewlines raw then Doc.concat [Doc.hardline, Doc.hardline]
      else if raw.elem '\n' then Doc.hardline
      else if (jsTrim raw).length < raw.length then Doc.line
      else str ""
    else Doc.fill (splitTextToDocs raw)
  else
    if ctx.parentTag = ParentTag.attributeParent then
      Doc.concat (replaceEndOfLineWith raw Doc.literalline)
    else Doc.text raw

/-- The Comment case of the dispatcher: a top-level range directive
toggles the range flag, a comment standing in front of an extracted
section prints as nothing, the ignore-next directive sets the single-node
flag; the comment itself prints as its text between comment markers. -/
def commentCase (ctx : Ctx) (n : Node) (data : List Char) (st : GState) : Doc × GState :=
  if isIgnoreStartDirective n && ctx.topLevel then
    (printCommentDoc data, { st with ignoreRange := true })
  else if isIgnoreEndDirective n && ctx.topLevel then
    (printCommentDoc data, { st with ignoreRange := false })
  else if doesEmbedStartAfter n.endPos ((ctx.nextSibling).map Node.start) ctx.embedStarts ||
      (match ctx.nextSibling with
       | Option.some nx =>
           isEmptyTextNode nx && doesEmbedStartAfter nx.endPos ctx.nextNextStart ctx.embedStarts
       | Option.none => false) then
    (str "", st)
  else if isIgnoreDirective n then
    (printCommentDoc data, { st with ignoreNext := true })
  else (printCommentDoc data, st)

/-- Whether an expression is a bare identifier equal to the given name
(the shorthand test of the directive cases). -/
def exprIsBareName (e : Expr) (name : List Char) : Bool :=
  match e with
  | Expr.ident en => decide (en = name)
  | _ => false

/-- The EventHandler case: prefix, name, modifiers, optional expression. -/
def eventHandlerDoc (strict : Bool) (name : List Char) (modifiers : List (List Char))
    (e : Option Expr) : Doc :=
  Doc.concat [str "on:", Doc.text name, modifiersDoc modifiers, exprEqPart strict e]

/-- The Binding case: shorthand exactly when the expression is a bare
identifier equal to the name, shorthand is allowed and strict mode is
off. -/
def bindingDoc (opts : Options) (name : List Char) (e : Expr) : Doc :=
  Doc.concat [str "bind:", Doc.text name,
    if exprIsBareName e name && opts.allowShorthand && !opts.strictMode then str ""
    else Doc.concat (str "=" :: jsExprDocs opts.strictMode e)]

/-- The Class case, with the same shorthand rule as Binding. -/
def classDirectiveDoc (opts : Options) (name : List Char) (e : Expr) : Doc :=
  Doc.concat [str "class:", Doc.text name,
    if exprIsBareName e name && opts.allowShorthand && !opts.strictMode then str ""
    else Doc.concat (str "=" :: jsExprDocs opts.strictMode e)]

/-- The Let case: shorthand whenever the expression is absent or a bare
identifier equal to the name, regardless of the configuration. -/
def letDirectiveDoc (opts : Options) (name : List Char) (e : Option Expr) : Doc :=
  Doc.concat [str "let:", Doc.text name,
    match e with
    | Option.none => str ""
    | Option.some ex =>
        if exprIsBareName ex name then str ""
        else Doc.concat (str "=" :: jsExprDocs opts.strictMode ex)]

/-- The Transition case: the directive keyword from the intro and outro
flags, then name, modifiers and optional expression. -/
def transitionDoc (strict : Bool) (name : List Char) (intro outro : Bool)
    (modifiers : List (List Char)) (e : Option Expr) : Doc :=
  Doc.concat [
    Doc.text (if intro && outro then S "transition" else if intro then S "in" else S "out"),
    str ":", Doc.text name, modifiersDoc modifiers, exprEqPart strict e]

/-- The Action case. -/
def actionDoc (strict : Bool) (name : List Char) (e : Option Expr) : Doc :=
  Doc.concat [str "use:", Doc.text name, exprEqPart strict e]

/-- The Animation case. -/
def animationDoc (strict : Bool) (name : List Char) (e : Option Expr) : Doc :=
  Doc.concat [str "animate:", Doc.text name, exprEqPart strict e]

/-- The DebugTag case. -/
def debugTagDoc (idents : List (List Char)) : Doc :=
  Doc.concat [str "\x7b@debug",
    if idents.length > 0 then
      Doc.concat [str " ", Doc.concat (joinDocs (str ", ") (idents.map Doc.text))]
    else str "",
    str "\x7d"]

/-- The shorthand forms of the Attribute case, chosen by strict-mode and
shorthand-allowed. -/
def attributeShorthandForms (opts : Options) (name : List Char) : Doc :=
  if opts.strictMode then
    Doc.concat [Doc.text name, str "=\"\x7b", Doc.text name, str "\x7d\""]
  else if opts.allowShorthand then
    Doc.concat [str "\x7b", Doc.text name, str "\x7d"]
  else
    Doc.concat [Doc.text name, str "=\x7b", Doc.text name, str "\x7d"]

/-- The this-binding document of an element-like tag. -/
def thisBindingDoc (strict : Bool) (etag : ElementTag) (thisB : Option ThisBinding) : Doc :=
  match etag, thisB with
  | ElementTag.inlineComponent, Option.some (ThisBinding.componentExpr e) =>
      Doc.concat ([attributeLine, str "this="] ++ jsExprDocs strict e)
  | ElementTag.element, Option.some (ThisBinding.elementTagName s) =>
      Doc.concat [attributeLine, str "this=", Doc.text ('"' :: s ++ ['"'])]
  | ElementTag.element, Option.some (ThisBinding.elementTagExpr e) =>
      Doc.concat ([attributeLine, str "this="] ++ jsExprDocs strict e)
  | _, _ => str ""

/-- The opening tag of an element-like node up to (not including) the
closing angle bracket. -/
def openingTagDocs (name : List Char) (thisBdoc : Doc) (attrs : List Doc)
    (hugStart bracketSameLine selfPre : Bool) : List Doc :=
  [str "<", Doc.text name,
    Doc.indent (groupConcat
      (thisBdoc :: attrs ++
        [if hugStart then str ""
         else if !bracketSameLine && !selfPre then Doc.dedent Doc.softline
         else str ""]))]

/-- The separator and edge-trim computation of the no-hug element path:
returns the start separator, the end separator and the child list with
trimmed edge text nodes. -/
def elementNoHugPrep (n : Node) (children : List Node) (hugStart hugEnd selfPre : Bool) :
    Doc × Doc × List Node :=
  if selfPre then (str "", str "", children)
  else
    let step1 : Doc × Doc × Bool × List Node :=
      match children.head? with
      | Option.some fc =>
          if !hugStart && isTextNode fc then
            if isTextNodeStartingWithLinebreak fc && children.length > 1 &&
                (!isInlineElement n ||
                  (match children.reverse.head? with
                   | Option.some lc => isTextNodeEndingWithWhitespace lc
                   | Option.none => false)) then
              (Doc.hardline, Doc.hardline, true, children.modifyHead trimNodeLeft)
            else if isInlineElement n then
              (Doc.line, Doc.softline, false, children.modifyHead trimNodeLeft)
            else
              (Doc.softline, Doc.softline, false, children.modifyHead trimNodeLeft)
          else (Doc.softline, Doc.softline, false, children)
      | Option.none => (Doc.softline, Doc.softline, false, children)
    match step1 with
    | (sepS, sepE, didSetEndSeparator, cs1) =>
        match cs1.reverse.head? with
        | Option.some lc =>
            if !hugEnd && isTextNode lc then
              let sepE2 :=
                if isInlineElement n && !didSetEndSeparator then Doc.line else sepE
              (sepS, sepE2, (cs1.reverse.modifyHead trimNodeRight).reverse)
            else (sepS, sepE, cs1)
        | Option.none => (sepS, sepE, cs1)

/-- The trimming predicate of the Fragment case: line-like documents,
whitespace-only string atoms and the forced-break marker. -/
def fragTrimPred (d : Doc) : Bool :=
  isLineDoc d ||
    (match d with
     | Doc.text s => decide (jsTrim s = [])
     | Doc.breakParent => true
     | _ => false)

/-- The whitespace handling of handleTextChild for a non-edge text child:
the child with transferred edge whitespace trimmed, the adjusted
accumulator, and the pending-whitespace flag for the next sibling. -/
def handleTextPrep (prevNode nextNode current : Node) (racc : List Doc) :
    Node × List Doc × Bool :=
  let stepA : Node × List Doc :=
    if isTextNodeStartingWithWhitespace current && !isEmptyTextNode current then
      let r1 :=
        if isInlineElement prevNode && !isTextNodeStartingWithLinebreak current then
          match racc with
          | d :: ds => groupConcat [d, Doc.line] :: ds
          | [] => []
        else racc
      let c1 :=
        if (isInlineElement prevNode && !isTextNodeStartingWithLinebreak current) ||
           (isBlockElement prevNode && !isTextNodeStartingWithLinebreak current) then
          trimNodeLeft current
        else current
      (c1, r1)
    else (current, racc)
  match stepA with
  | (current1, racc1) =>
    let stepB : Node × Bool :=
      if isTextNodeEndingWithWhitespace current1 then
        let hitInline := isInlineElement nextNode && !isTextNodeEndingWithLinebreak current1
        let hitBlock := isBlockElement nextNode && !isTextNodeEndingWithLinebreak current1 2
        if hitInline || hitBlock then
          (trimNodeRight current1, !isBlockElement prevNode)
        else (current1, false)
      else (current1, false)
    match stepB with
    | (current2, flag2) => (current2, racc1, flag2)

/-- The start separator of printSvelteBlockChildren, from the block-edge
whitespace classes. -/
def svelteBlockStartline (children : List Node) : Doc :=
  let wsS := checkWhitespaceAtStartOfSvelteBlock children
  let wsE := checkWhitespaceAtEndOfSvelteBlock children
  if wsS = BlockWS.wsNone then str ""
  else if wsE = BlockWS.wsLine || wsS = BlockWS.wsLine then Doc.hardline
  else Doc.line

/-- The end separator of printSvelteBlockChildren. -/
def svelteBlockEndline (children : List Node) : Doc :=
  let wsS := checkWhitespaceAtStartOfSvelteBlock children
  let wsE := checkWhitespaceAtEndOfSvelteBlock children
  if wsE = BlockWS.wsNone then str ""
  else if wsE = BlockWS.wsLine || wsS = BlockWS.wsLine then Doc.hardline
  else Doc.line

/-- The edge-text trimming of printSvelteBlockChildren. -/
def svelteBlockTrim (children : List Node) : List Node :=
  let cs1 :=
    match children.head? with
    | Option.some fc =>
        if isTextNodeStartingWithWhitespace fc then children.modifyHead trimNodeLeft
        else children
    | Option.none => children
  match cs1.reverse.head? with
  | Option.some lc =>
      if isTextNodeEndingWithWhitespace lc then (cs1.reverse.modifyHead trimNodeRight).reverse
      else cs1
  | Option.none => cs1

/-! ## The dispatcher

The print function of the source, with the host recursion facility made
explicit: fuel bounds the recursion depth, the structural-path facts are a
Ctx value, and the process-wide state is threaded.  Every recursive call
consumes fuel, so the mutual block is structurally recursive on it. -/

mutual

/-- One dispatch of the print function on a non-root node: the
format-suppression gate first, then the per-kind rules. -/
def printNode (fuel : Nat) (opts : Options) (ctx : Ctx) (n : Node) (st : GState) :
    Except PrintErr (Doc × GState) :=
  match fuel with
  | 0 => Except.error PrintErr.outOfFuel
  | Nat.succ fuel =>
    if suppressionApplies st n then
      let st1 := if st.ignoreNext then { st with ignoreNext := false } else st
      Except.ok (printIgnoredDoc opts n, st1)
    else
      match n.kind with
      | NodeKind.fragment children => printFragmentCase fuel opts ctx children st
      | NodeKind.text raw => Except.ok (textCase ctx raw, st)
      | NodeKind.element etag name _ _ langSupported thisB attributes children =>
          printElementLike fuel opts ctx n etag name langSupported thisB attributes children st
      | NodeKind.optionsTag name attributes =>
          if opts.sortOrder ≠ SvelteSortOrder.none then
            Except.error
              (PrintErr.message (S "Options tags should have been handled by prepareChildren"))
          else printVoidTagCase fuel opts ctx name attributes st
      | NodeKind.bodyTag name attributes => printVoidTagCase fuel opts ctx name attributes st
      | NodeKind.documentTag name attributes => printVoidTagCase fuel opts ctx name attributes st
      | NodeKind.identifierNode name => Except.ok (Doc.text name, st)
      | NodeKind.attributeShorthand e =>
          (match e with
           | Expr.ident en => Except.ok (Doc.text en, st)
           | _ => Except.ok (str "", st))
      | NodeKind.attribute name value => printAttributeCase fuel opts ctx name value st
      | NodeKind.mustacheTag e =>
          Except.ok (Doc.concat [str "\x7b", printExpr e, str "\x7d"], st)
      | NodeKind.ifBlock e children elseNode =>
          printIfBlockCase fuel opts ctx e children elseNode st
      | NodeKind.elseBlock children => printElseBlockCase fuel opts ctx children st
      | NodeKind.eachBlock e ctxPat indexName key children elseNode =>
          printEachBlockCase fuel opts ctx e ctxPat indexName key children elseNode st
      | NodeKind.awaitBlock e value errPat pend thn ctch =>
          printAwaitBlockCase fuel opts ctx e value errPat pend thn ctch st
      | NodeKind.keyBlock e children => printKeyBlockCase fuel opts ctx e children st
      | NodeKind.pendingBlock children =>
          printSvelteBlockChildrenF fuel opts
            (childBase ctx ctx.insidePre ParentTag.otherParent false) children st
      | NodeKind.thenBlock children =>
          printSvelteBlockChildrenF fuel opts
            (childBase ctx ctx.insidePre ParentTag.otherParent false) children st
      | NodeKind.catchBlock children =>
          printSvelteBlockChildrenF fuel opts
            (childBase ctx ctx.insidePre ParentTag.otherParent false) children st
      | NodeKind.eventHandler name modifiers e =>
          Except.ok (eventHandlerDoc opts.strictMode name modifiers e, st)
      | NodeKind.binding name e => Except.ok (bindingDoc opts name e, st)
      | NodeKind.classDirective name e => Except.ok (classDirectiveDoc opts name e, st)
      | NodeKind.styleDirective name modifiers value =>
          printStyleDirCase fuel opts ctx name modifiers value st
      | NodeKind.letDirective name e => Except.ok (letDirectiveDoc opts name e, st)
      | NodeKind.debugTag idents => Except.ok (debugTagDoc idents, st)
      | NodeKind.refTag name => Except.ok (Doc.concat [str "ref:", Doc.text name], st)
      | NodeKind.comment data => Except.ok (commentCase ctx n data st)
      | NodeKind.transition name intro outro modifiers e =>
          Except.ok (transitionDoc opts.strictMode name intro outro modifiers e, st)
      | NodeKind.action name e => Except.ok (actionDoc opts.strictMode name e, st)
      | NodeKind.animation name e => Except.ok (animationDoc opts.strictMode name e, st)
      | NodeKind.rawMustacheTag e =>
          Except.ok (Doc.concat [str "\x7b@html ", printExpr e, str "\x7d"], st)
      | NodeKind.spread e =>
          Except.ok (Doc.concat [str "\x7b...", printExpr e, str "\x7d"], st)
      | NodeKind.constTag e =>
          Except.ok (Doc.concat [str "\x7b@const ", printExpr e, str "\x7d"], st)
      | NodeKind.scriptOrStyle d => Except.ok (d, st)
      | NodeKind.unknownNode gen =>
          (match gen with
           | Option.some s => Except.ok (Doc.text s, st)
           | Option.none => Except.error (PrintErr.message (S "unknown node type")))

/-- The Fragment case: empty or all-whitespace child lists print as
nothing; otherwise the children are trimmed, assembled, trimmed of edge
whitespace documents and wrapped in a group terminated by a hard line. -/
def printFragmentCase (fuel : Nat) (opts : Options) (ctx : Ctx) (children : List Node)
    (st : GState) : Except PrintErr (Doc × GState) :=
  match fuel with
  | 0 => Except.error PrintErr.outOfFuel
  | Nat.succ fuel =>
    if children.isEmpty || children.all isEmptyTextNode then Except.ok (str "", st)
    else if !ctx.insidePre then do
      let children2 := trimChildrenF children
      let base := childBase ctx ctx.insidePre ParentTag.otherParent ctx.childrenTopLevel
      let (cd, st1) ← printChildrenF fuel opts base children2 st
      let output := docTrim fragTrimPred [cd]
      if output.all isEmptyDoc then Except.ok (str "", st1)
      else Except.ok (groupConcat (output ++ [Doc.hardline]), st1)
    else do
      let base := childBase ctx ctx.insidePre ParentTag.otherParent ctx.childrenTopLevel
      let (ds, st1) ← printKids fuel opts base children st
      Except.ok (groupConcat ds, st1)

/-- The Options (after reordering), Body and Document cases: a
self-closing tag with attributes. -/
def printVoidTagCase (fuel : Nat) (opts : Options) (ctx : Ctx) (name : List Char)
    (attributes : List Node) (st : GState) : Except PrintErr (Doc × GState) :=
  match fuel with
  | 0 => Except.error PrintErr.outOfFuel
  | Nat.succ fuel => do
    let base := childBase ctx ctx.insidePre ParentTag.otherParent false
    let (attrDocs, st1) ← printKids fuel opts base attributes st
    Except.ok (voidTagDoc name (prependAttrLine attrDocs) opts.bracketSameLine, st1)

/-- The Attribute case: the three shorthand forms when the value
qualifies, otherwise the (possibly quoted) value documents. -/
def printAttributeCase (fuel : Nat) (opts : Options) (ctx : Ctx) (name : List Char)
    (value : AttrValue) (st : GState) : Except PrintErr (Doc × GState) :=
  match fuel with
  | 0 => Except.error PrintErr.outOfFuel
  | Nat.succ fuel =>
    if isOrCanBeConvertedToShorthand name value then
      Except.ok (attributeShorthandForms opts name, st)
    else
      match value with
      | AttrValue.flag => Except.ok (Doc.concat [Doc.text name], st)
      | AttrValue.nodes vals => do
          let quotes := !isLoneMustacheTag value || opts.strictMode
          let (attrNodeValue, st1) ← printAttributeNodeValueF fuel opts ctx quotes name vals st
          if quotes then
            Except.ok (Doc.concat [Doc.text name, str "=", str "\"", attrNodeValue, str "\""], st1)
          else
            Except.ok (Doc.concat [Doc.text name, str "=", attrNodeValue], st1)

/-- The StyleDirective case: prefix, modifiers, then the three-way
shorthand selection or the (possibly quoted) value documents. -/
def printStyleDirCase (fuel : Nat) (opts : Options) (ctx : Ctx) (name : List Char)
    (modifiers : List (List Char)) (value : AttrValue) (st : GState) :
    Except PrintErr (Doc × GState) :=
  match fuel with
  | 0 => Except.error PrintErr.outOfFuel
  | Nat.succ fuel =>
    let pref := [str "style:", Doc.text name, modifiersDoc modifiers]
    if isOrCanBeConvertedToShorthand name value ||
        (match value with | AttrValue.flag => true | _ => false) then
      if opts.strictMode then
        Except.ok (Doc.concat (pref ++ [str "=\"\x7b", Doc.text name, str "\x7d\""]), st)
      else if opts.allowShorthand then
        Except.ok (Doc.concat pref, st)
      else
        Except.ok (Doc.concat (pref ++ [str "=\x7b", Doc.text name, str "\x7d"]), st)
    else
      match value with
      | AttrValue.flag => Except.ok (Doc.concat pref, st)
      | AttrValue.nodes vals => do
          let quotes := !isLoneMustacheTag value || opts.strictMode
          let (attrNodeValue, st1) ← printAttributeNodeValueF fuel opts ctx quotes name vals st
          if quotes then
            Except.ok (Doc.concat (pref ++ [str "=", str "\"", attrNodeValue, str "\""]), st1)
          else
            Except.ok (Doc.concat (pref ++ [str "=", attrNodeValue]), st1)

/-- The IfBlock case. -/
def printIfBlockCase (fuel : Nat) (opts : Options) (ctx : Ctx) (e : Expr)
    (children : List Node) (elseNode : Option Node) (st : GState) :
    Except PrintErr (Doc × GState) :=
  match fuel with
  | 0 => Except.error PrintErr.outOfFuel
  | Nat.succ fuel => do
    let base := childBase ctx ctx.insidePre ParentTag.otherParent false
    let (bc, st1) ← printSvelteBlockChildrenF fuel opts base children st
    let defs := [str "\x7b#if ", printExpr e, str "\x7d", bc]
    let (defs2, st2) ←
      match elseNode with
      | Option.some en => do
          let (ed, st2) ← printNode fuel opts base en st1
          Except.ok (defs ++ [ed], st2)
      | Option.none => Except.ok (defs, st1)
    Except.ok (Doc.concat [groupConcat (defs2 ++ [str "\x7b/if\x7d"]), Doc.breakParent], st2)

/-- The shape test of the ElseBlock case: a child list holding exactly one
IfBlock, returned with its fields. -/
def elseIfChild : List Node → Option (Expr × List Node × Option Node)
  | [Node.mk _ _ (NodeKind.ifBlock ife ifchildren ifelse)] =>
      Option.some (ife, ifchildren, ifelse)
  | _ => Option.none

/-- The ElseBlock case: the chained else-if collapse when the block holds
exactly one IfBlock and the parent is not an EachBlock; the plain else
form otherwise. -/
def printElseBlockCase (fuel : Nat) (opts : Options) (ctx : Ctx) (children : List Node)
    (st : GState) : Except PrintErr (Doc × GState) :=
  match fuel with
  | 0 => Except.error PrintErr.outOfFuel
  | Nat.succ fuel =>
    match elseIfChild children, decide (ctx.parentTag = ParentTag.eachBlockParent) with
    | Option.some (ife, ifchildren, ifelse), false => do
        let base := childBase ctx ctx.insidePre ParentTag.otherParent false
        let (bc, st1) ← printSvelteBlockChildrenF fuel opts base ifchildren st
        let defs := [str "\x7b:else if ", printExpr ife, str "\x7d", bc]
        let (defs2, st2) ←
          match ifelse with
          | Option.some en => do
              let (ed, st2) ← printNode fuel opts base en st1
              Except.ok (defs ++ [ed], st2)
          | Option.none => Except.ok (defs, st1)
        Except.ok (Doc.concat defs2, st2)
    | _, _ => do
        let base := childBase ctx ctx.insidePre ParentTag.otherParent false
        let (bc, st1) ← printSvelteBlockChildrenF fuel opts base children st
        Except.ok (Doc.concat [str "\x7b:else\x7d", bc], st1)

/-- The EachBlock case. -/
def printEachBlockCase (fuel : Nat) (opts : Options) (ctx : Ctx) (e ctxPat : Expr)
    (indexName : Option (List Char)) (key : Option Expr) (children : List Node)
    (elseNode : Option Node) (st : GState) : Except PrintErr (Doc × GState) :=
  match fuel with
  | 0 => Except.error PrintErr.outOfFuel
  | Nat.succ fuel => do
    let def1 := [str "\x7b#each ", printExpr e, str " as",
      Doc.text (expandNode (Option.some ctxPat))]
    let def2 := def1 ++
      (match indexName with
       | Option.some i => [str ", ", Doc.text i]
       | Option.none => [])
    let def3 := def2 ++
      (match key with
       | Option.some k => [str " (", printExpr k, str ")"]
       | Option.none => [])
    let base := childBase ctx ctx.insidePre ParentTag.otherParent false
    let (bc, st1) ← printSvelteBlockChildrenF fuel opts base children st
    let def4 := def3 ++ [str "\x7d", bc]
    let (def5, st2) ←
      match elseNode with
      | Option.some en => do
          let ebase := childBase ctx ctx.insidePre ParentTag.eachBlockParent false
          let (ed, st2) ← printNode fuel opts ebase en st1
          Except.ok (def4 ++ [ed], st2)
      | Option.none => Except.ok (def4, st1)
    Except.ok (Doc.concat [groupConcat (def5 ++ [str "\x7b/each\x7d"]), Doc.breakParent], st2)

/-- The AwaitBlock case: the shape is selected by which of the pending,
then and catch blocks contain non-whitespace children. -/
def printAwaitBlockCase (fuel : Nat) (opts : Options) (ctx : Ctx) (e : Expr)
    (value errPat : Option Expr) (pend thn ctch : Node) (st : GState) :
    Except PrintErr (Doc × GState) :=
  match fuel with
  | 0 => Except.error PrintErr.outOfFuel
  | Nat.succ fuel => do
    let hasPendingBlock := (childrenOf pend).any fun c => !isEmptyTextNode c
    let hasThenBlock := (childrenOf thn).any fun c => !isEmptyTextNode c
    let hasCatchBlock := (childrenOf ctch).any fun c => !isEmptyTextNode c
    let base := childBase ctx ctx.insidePre ParentTag.otherParent false
    let (block1, st1) ←
      if !hasPendingBlock && hasThenBlock then do
        let (thenDoc, st1) ← printNode fuel opts base thn st
        Except.ok ([groupConcat [str "\x7b#await ", printExpr e, str " then",
          Doc.text (expandNode value), str "\x7d"], thenDoc], st1)
      else if !hasPendingBlock && hasCatchBlock then do
        let (catchDoc, st1) ← printNode fuel opts base ctch st
        Except.ok ([groupConcat [str "\x7b#await ", printExpr e, str " catch",
          Doc.text (expandNode errPat), str "\x7d"], catchDoc], st1)
      else do
        let b0 := [groupConcat [str "\x7b#await ", printExpr e, str "\x7d"]]
        let (b1, st1) ←
          if hasPendingBlock then do
            let (pendDoc, st1) ← printNode fuel opts base pend st
            Except.ok (b0 ++ [pendDoc], st1)
          else Except.ok (b0, st)
        if hasThenBlock then do
          let (thenDoc, st2) ← printNode fuel opts base thn st1
          Except.ok (b1 ++ [groupConcat [str "\x7b:then", Doc.text (expandNode value),
            str "\x7d"], thenDoc], st2)
        else Except.ok (b1, st1)
    let (block2, st2) ←
      if (hasPendingBlock || hasThenBlock) && hasCatchBlock then do
        let (catchDoc, st2) ← printNode fuel opts base ctch st1
        Except.ok (block1 ++ [groupConcat [str "\x7b:catch", Doc.text (expandNode errPat),
          str "\x7d"], catchDoc], st2)
      else Except.ok (block1, st1)
    Except.ok (groupConcat (block2 ++ [str "\x7b/await\x7d"]), st2)

/-- The KeyBlock case. -/
def printKeyBlockCase (fuel : Nat) (opts : Options) (ctx : Ctx) (e : Expr)
    (children : List Node) (st : GState) : Except PrintErr (Doc × GState) :=
  match fuel with
  | 0 => Except.error PrintErr.outOfFuel
  | Nat.succ fuel => do
    let base := childBase ctx ctx.insidePre ParentTag.otherParent false
    let (bc, st1) ← printSvelteBlockChildrenF fuel opts base children st
    let defs := [str "\x7b#key ", printExpr e, str "\x7d", bc]
    Except.ok (Doc.concat [groupConcat (defs ++ [str "\x7b/key\x7d"]), Doc.breakParent], st1)

/-- The element-like case of the dispatcher (Element, InlineComponent,
Slot, SlotTemplate, Window, Head, Title). -/
def printElementLike (fuel : Nat) (opts : Options) (ctx : Ctx) (n : Node)
    (etag : ElementTag) (name : List Char) (langSupported : Bool)
    (thisB : Option ThisBinding) (attributes : List Node) (children : List Node)
    (st : GState) : Except PrintErr (Doc × GState) :=
  match fuel with
  | 0 => Except.error PrintErr.outOfFuel
  | Nat.succ fuel => do
    let bracketSameLine := opts.bracketSameLine
    let selfPre := ctx.insidePre || (name.map Char.toLower = S "pre")
    let isSupportedLanguage := !(name = S "template" && !langSupported)
    let isEmpty := children.all isEmptyTextNode
    let isDoctypeTag := name.map Char.toUpper = S "!DOCTYPE"
    let isSelfClosingTag := isEmpty &&
      (!opts.strictMode || etag ≠ ElementTag.element || selfClosingTags.elem name || isDoctypeTag)
    -- Order important: print attributes first
    let abase := childBase ctx ctx.insidePre ParentTag.otherParent false
    let (attrDocs, st0) ← printKids fuel opts abase attributes st
    let attrs := prependAttrLine attrDocs
    let possibleThisBinding := thisBindingDoc opts.strictMode etag thisB
    if isSelfClosingTag then
      Except.ok (selfCloseDoc name possibleThisBinding attrs bracketSameLine isDoctypeTag, st0)
    else
      printElementTail fuel opts ctx n name selfPre isSupportedLanguage isEmpty
        possibleThisBinding attrs children st0

/-- The body and closing of a non-self-closing element-like tag: the body
thunk selection, then one of the four hug shapes or the unsupported
language shape. -/
def printElementTail (fuel : Nat) (opts : Options) (ctx : Ctx) (n : Node)
    (name : List Char) (selfPre isSupportedLanguage isEmpty : Bool)
    (possibleThisBinding : Doc) (attrs : List Doc) (children : List Node)
    (st0 : GState) : Except PrintErr (Doc × GState) :=
  match fuel with
  | 0 => Except.error PrintErr.outOfFuel
  | Nat.succ fuel => do
    let bracketSameLine := opts.bracketSameLine
    let hugStart := shouldHugStart n isSupportedLanguage
    let hugEnd := shouldHugEnd n isSupportedLanguage
    -- body selection, evaluated before any trimming
    let bodySelLine :=
      isInlineElement n && !children.isEmpty &&
        (match children.head? with
         | Option.some c => isTextNodeStartingWithWhitespace c
         | Option.none => false) && !selfPre
    let kidsBase := childBase ctx selfPre ParentTag.otherParent false
    let bodyOf : List Node → GState → Except PrintErr (Doc × GState) := fun cs stx =>
      if isEmpty then
        if bodySelLine then Except.ok (Doc.line, stx)
        else Except.ok ((if bracketSameLine then Doc.softline else str ""), stx)
      else if selfPre then printPreF fuel opts kidsBase cs stx
      else if !isSupportedLanguage then
        Except.ok (printRawText opts.originalText cs true, stx)
      else printChildrenF fuel opts kidsBase cs stx
    let openingTag := openingTagDocs name possibleThisBinding attrs hugStart bracketSameLine selfPre
    if !isSupportedLanguage && !isEmpty then do
      let (bodyDoc, st1) ← bodyOf children st0
      Except.ok (groupConcat (openingTag ++ [str ">",
        groupConcat [Doc.hardline, bodyDoc, Doc.hardline], closeTag name]), st1)
    else if hugStart && hugEnd then do
      let (bodyDoc, st1) ← bodyOf children st0
      let huggedContent := Doc.concat [Doc.softline,
        groupConcat [str ">", bodyDoc, closeTagOpen name]]
      let omitSoftlineBeforeClosingTag :=
        (isEmpty && !bracketSameLine) || canOmitSoftlineBeforeClosingTag n
      Except.ok (groupConcat (openingTag ++
        [if isEmpty then Doc.group huggedContent else Doc.group (Doc.indent huggedContent),
         if omitSoftlineBeforeClosingTag then str "" else Doc.softline, str ">"]), st1)
    else
      match elementNoHugPrep n children hugStart hugEnd selfPre with
      | (noHugSeparatorStart, noHugSeparatorEnd, children2) =>
        if hugStart then do
          let (bodyDoc, st1) ← bodyOf children2 st0
          Except.ok (groupConcat (openingTag ++
            [Doc.indent (Doc.concat [Doc.softline, groupConcat [str ">", bodyDoc]]),
             noHugSeparatorEnd, closeTag name]), st1)
        else if hugEnd then do
          let (bodyDoc, st1) ← bodyOf children2 st0
          Except.ok (groupConcat (openingTag ++
            [str ">",
             Doc.indent (Doc.concat [noHugSeparatorStart,
               groupConcat [bodyDoc, closeTagOpen name]]),
             if canOmitSoftlineBeforeClosingTag n then str "" else Doc.softline,
             str ">"]), st1)
        else if isEmpty then do
          let (bodyDoc, st1) ← bodyOf children2 st0
          Except.ok (groupConcat (openingTag ++ [str ">", bodyDoc, closeTag name]), st1)
        else do
          let (bodyDoc, st1) ← bodyOf children2 st0
          Except.ok (groupConcat (openingTag ++
            [str ">", Doc.indent (Doc.concat [noHugSeparatorStart, bodyDoc]),
             noHugSeparatorEnd, closeTag name]), st1)

/-- path.map over a child list: one dispatch per child, left to right,
sibling facts provided to each. -/
def printKids (fuel : Nat) (opts : Options) (base : Ctx) (ns : List Node) (st : GState) :
    Except PrintErr (List Doc × GState) :=
  match fuel, ns with
  | 0, _ => Except.error PrintErr.outOfFuel
  | Nat.succ _, [] => Except.ok ([], st)
  | Nat.succ fuel, c :: rest => do
      let cctx := { base with
        nextSibling := rest.head?,
        nextNextStart := ((rest.drop 1).head?).map Node.start,
        childrenTopLevel := false }
      let (d, st1) ← printNode fuel opts cctx c st
      let (ds, st2) ← printKids fuel opts base rest st1
      Except.ok (d :: ds, st2)

/-- printChildren of the source: prepare the child list, walk it with the
text/block/inline handlers, and append the forced-break marker when the
list holds more than one node and at least one block-like node. -/
def printChildrenF (fuel : Nat) (opts : Options) (base : Ctx) (children : List Node)
    (st : GState) : Except PrintErr (Doc × GState) :=
  match fuel with
  | 0 => Except.error PrintErr.outOfFuel
  | Nat.succ fuel =>
    if base.insidePre then do
      let (ds, st1) ← printKids fuel opts base children st
      Except.ok (Doc.concat ds, st1)
    else do
      let (childNodes, st1) ← prepareChildrenF fuel opts base children Option.none st
      if childNodes.length = 0 then Except.ok (str "", st1)
      else do
        let (ds, st2) ← printChildrenLoop fuel opts base Option.none false [] childNodes st1
        let forceBreakContent := childNodes.length > 1 && childNodes.any isBlockElement
        let ds2 := if forceBreakContent then ds ++ [Doc.breakParent] else ds
        Except.ok (Doc.concat ds2, st2)

/-- The left-to-right walk of printChildren: prev is the already-processed
previous child, flag is handleWhitespaceOfPrevTextNode, racc the reversed
document accumulator. -/
def printChildrenLoop (fuel : Nat) (opts : Options) (base : Ctx) (prev : Option Node)
    (flag : Bool) (racc : List Doc) (ns : List Node) (st : GState) :
    Except PrintErr (List Doc × GState) :=
  match fuel, ns with
  | 0, _ => Except.error PrintErr.outOfFuel
  | Nat.succ _, [] => Except.ok (racc.reverse, st)
  | Nat.succ fuel, current :: rest => do
    let printCur : Node → GState → Except PrintErr (Doc × GState) := fun c stx =>
      printNode fuel opts
        { base with
          nextSibling := rest.head?,
          nextNextStart := ((rest.drop 1).head?).map Node.start,
          childrenTopLevel := false } c stx
    if isTextNode current then
      -- handleTextChild
      if prev.isNone || rest.isEmpty then do
        let (d, st1) ← printCur current st
        printChildrenLoop fuel opts base (Option.some current) false (d :: racc) rest st1
      else do
        let prevNode := prev.getD current
        let nextNode := (rest.head?).getD current
        match handleTextPrep prevNode nextNode current racc with
        | (current2, racc1, flag2) => do
          let (d, st1) ← printCur current2 st
          printChildrenLoop fuel opts base (Option.some current2) flag2 (d :: racc1) rest st1
    else if isBlockElement current then do
      -- handleBlockChild
      let racc1 :=
        match prev with
        | Option.some p =>
            if !isBlockElement p &&
                (!isTextNode p || flag || !isTextNodeEndingWithWhitespace p) then
              Doc.softline :: racc
            else racc
        | Option.none => racc
      let (d, st1) ← printCur current st
      let racc2 := d :: racc1
      let racc3 :=
        match rest.head? with
        | Option.some nx =>
            if !isTextNode nx ||
                ((!isEmptyTextNode nx ||
                    (match (rest.drop 1).head? with
                     | Option.some nx2 => isInlineElement nx2
                     | Option.none => false)) &&
                  !isTextNodeStartingWithLinebreak nx) then
              Doc.softline :: racc2
            else racc2
        | Option.none => racc2
      printChildrenLoop fuel opts base (Option.some current) false racc3 rest st1
    else if isInlineElement current then do
      -- handleInlineChild
      let (d, st1) ← printCur current st
      let racc1 := if flag then groupConcat [Doc.line, d] :: racc else d :: racc
      printChildrenLoop fuel opts base (Option.some current) false racc1 rest st1
    else do
      let (d, st1) ← printCur current st
      printChildrenLoop fuel opts base (Option.some current) false (d :: racc) rest st1

/-- prepareChildren pass one: drop zero-length text children and
whitespace-only text in front of extracted sections; when reordering is
active, capture the comment above the options node and relocate the
options node into the pending global slot. -/
def prepareChildrenF (fuel : Nat) (opts : Options) (base : Ctx) (ns : List Node)
    (svelteOptionsComment : Option Doc) (st : GState) :
    Except PrintErr (List Node × GState) :=
  match fuel, ns with
  | 0, _ => Except.error PrintErr.outOfFuel
  | Nat.succ _, [] => Except.ok ([], st)
  | Nat.succ fuel, current :: rest =>
    if isTextNode current && rawTextOf current = [] then
      prepareChildrenF fuel opts base rest svelteOptionsComment st
    else if isEmptyTextNode current &&
        doesEmbedStartAfter current.endPos ((rest.head?).map Node.start) base.embedStarts then
      prepareChildrenF fuel opts base rest svelteOptionsComment st
    else if opts.sortOrder ≠ SvelteSortOrder.none && isCommentFollowedByOptions current rest then
      let cmt :=
        match current.kind with
        | NodeKind.comment data => Option.some (printCommentDoc data)
        | _ => svelteOptionsComment
      match rest with
      | nxt :: rest2 =>
          if isEmptyTextNode nxt then prepareChildrenF fuel opts base rest2 cmt st
          else prepareChildrenF fuel opts base (nxt :: rest2) cmt st
      | [] => prepareChildrenF fuel opts base [] cmt st
    else
      match current.kind with
      | NodeKind.optionsTag oname oattrs =>
          if opts.sortOrder ≠ SvelteSortOrder.none then do
            -- printSvelteOptions: render the options tag into the global slot
            let abase := childBase base base.insidePre ParentTag.otherParent false
            let (attrDocs, st1) ← printKids fuel opts abase oattrs st
            let optDoc := groupConcat
              [voidTagDoc oname (prependAttrLine attrDocs) opts.bracketSameLine, Doc.hardline]
            let optDoc2 :=
              match svelteOptionsComment with
              | Option.some c => groupConcat [c, Doc.hardline, optDoc]
              | Option.none => optDoc
            let st2 := { st1 with svelteOptionsDoc := Option.some optDoc2 }
            prepareChildrenF fuel opts base rest svelteOptionsComment st2
          else do
            let (kept, st1) ← prepareChildrenF fuel opts base rest svelteOptionsComment st
            Except.ok (mergeTexts (current :: kept), st1)
      | _ => do
          let (kept, st1) ← prepareChildrenF fuel opts base rest svelteOptionsComment st
          Except.ok (mergeTexts (current :: kept), st1)

/-- printSvelteBlockChildren of the source: indented children of a block
construct between edge separators chosen from the block-edge whitespace. -/
def printSvelteBlockChildrenF (fuel : Nat) (opts : Options) (base : Ctx)
    (children : List Node) (st : GState) : Except PrintErr (Doc × GState) :=
  match fuel with
  | 0 => Except.error PrintErr.outOfFuel
  | Nat.succ fuel =>
    if children.length = 0 then Except.ok (str "", st)
    else do
      let (cd, st1) ← printChildrenF fuel opts base (svelteBlockTrim children) st
      Except.ok (Doc.concat
        [Doc.indent (Doc.concat [svelteBlockStartline children, Doc.group cd]),
         svelteBlockEndline children], st1)

/-- printPre of the source: text children become raw source lines joined
by literal line breaks; other children print normally. -/
def printPreF (fuel : Nat) (opts : Options) (base : Ctx) (ns : List Node) (st : GState) :
    Except PrintErr (Doc × GState) :=
  match fuel, ns with
  | 0, _ => Except.error PrintErr.outOfFuel
  | Nat.succ _, [] => Except.ok (Doc.concat [], st)
  | Nat.succ fuel, c :: rest => do
      let (d, st1) ←
        if isTextNode c then
          let lines := ((sliceText opts.originalText c.start c.endPos).splitOn '\n')
          let lines2 := (lines.dropLast.map stripCR) ++ [lines.getLastD []]
          Except.ok (Doc.concat (joinDocs Doc.literalline (lines2.map Doc.text)), st)
        else
          printNode fuel opts
            { base with
              nextSibling := rest.head?,
              nextNextStart := ((rest.drop 1).head?).map Node.start,
              childrenTopLevel := false } c st
      let (drest, st2) ← printPreF fuel opts base rest st1
      match drest with
      | Doc.concat ds => Except.ok (Doc.concat (d :: ds), st2)
      | other => Except.ok (Doc.concat [d, other], st2)

/-- printAttributeNodeValue of the source. -/
def printAttributeNodeValueF (fuel : Nat) (opts : Options) (ctx : Ctx) (quotes : Bool)
    (name : List Char) (vals : List Node) (st : GState) : Except PrintErr (Doc × GState) :=
  match fuel with
  | 0 => Except.error PrintErr.outOfFuel
  | Nat.succ fuel => do
    let vbase := childBase ctx true ParentTag.attributeParent false
    let (valueDocs, st1) ← printKids fuel opts vbase vals st
    if !quotes || !formattableAttributes.elem name then
      Except.ok (Doc.concat valueDocs, st1)
    else
      Except.ok (Doc.indent (groupConcat (docTrim isLineDoc valueDocs)), st1)

end


/-! ## The root: comment reattachment and the section reorderer -/

/-- A comment reattached to a script or style section, with whether a
blank line separated it from its target. -/
structure CommentInfo where
  commentData : List Char
  emptyLineAfter : Bool
deriving DecidableEq, Repr

/-- Modelled from the spec: an extracted script or style section.  Its
rendering delegates to the foreign-language collaborator of spec section
6, so the section carries the document that collaborator produces,
together with its source offsets used for adjacency tests. -/
structure ScriptPart where
  start : Nat
  endPos : Nat
  embedDoc : Doc
  comments : List CommentInfo := []

/-- The root value handed to one print invocation: the markup tree plus
the extracted module script, instance script and style sections. -/
structure ASTNode where
  html : Node
  moduleScript : Option ScriptPart
  instanceScript : Option ScriptPart
  css : Option ScriptPart

/-- Replaces the child list of a fragment node. -/
def setChildren (n : Node) (cs : List Node) : Node :=
  match n with
  | Node.mk s e (NodeKind.fragment _) => Node.mk s e (NodeKind.fragment cs)
  | other => other

/-- A reattachable comment: a comment that is not an ignore-range
directive. -/
def isReattachableComment (n : Node) : Bool :=
  match n.kind with
  | NodeKind.comment _ => !isIgnoreStartDirective n && !isIgnoreEndDirective n
  | _ => false

/-- The index of the sibling whose end offset equals the given start
offset (the adjacency search of removeAndGetLeadingComments). -/
def findIdxByEnd (siblings : List Node) (startPos : Nat) : Option Nat :=
  siblings.findIdx? fun c => c.endPos = startPos

/-- The upward walk of removeAndGetLeadingComments: collect the chain of
comments and whitespace-only text nodes ending at the given offset.
Comment entries are paired with the index of the whitespace node above
them, or none when two comments abut directly (the synthetic empty text
node of the source).  Returns (comment indices, newline index slots). -/
def ragcWalk (fuel : Nat) (siblings : List Node) (curStart : Nat)
    (commentIdxs : List Nat) (newlineIdxs : List (Option Nat)) :
    List Nat × List (Option Nat) :=
  match fuel with
  | 0 => (commentIdxs, newlineIdxs)
  | Nat.succ fuel =>
    match findIdxByEnd siblings curStart with
    | Option.none => (commentIdxs, newlineIdxs)
    | Option.some i =>
        match siblings.get? i with
        | Option.none => (commentIdxs, newlineIdxs)
        | Option.some prevN =>
            if isReattachableComment prevN then
              let commentIdxs2 := commentIdxs ++ [i]
              let newlineIdxs2 :=
                if commentIdxs2.length ≠ newlineIdxs.length then newlineIdxs ++ [Option.none]
                else newlineIdxs
              ragcWalk fuel siblings prevN.start commentIdxs2 newlineIdxs2
            else if isEmptyTextNode prevN then
              ragcWalk fuel siblings prevN.start commentIdxs (newlineIdxs ++ [Option.some i])
            else (commentIdxs, newlineIdxs)

/-- removeAndGetLeadingComments of the source: the comments directly above
the given section start (allowing intervening whitespace-only text) are
collected with their blank-line spacing and deleted from the sibling
list.  Deletion is by position; the reference-equality artifact of the
source when two comments abut directly is not modelled. -/
def removeAndGetLeadingComments (siblings : List Node) (partStart : Nat) :
    List CommentInfo × List Node :=
  if siblings.length = 0 then ([], siblings)
  else
    let walk := ragcWalk (siblings.length + 1) siblings partStart [] []
    match walk with
    | (commentIdxs, newlineIdxs) =>
      let newlinesT := newlineIdxs.take commentIdxs.length
      let removeIdxs := commentIdxs ++ newlinesT.reduceOption
      let siblings2 := (siblings.enum.filter fun p => !(removeIdxs.contains p.1)).map Prod.snd
      let infos := (commentIdxs.zip newlinesT).map fun p =>
        { commentData :=
            match (siblings.get? p.1).map Node.kind with
            | Option.some (NodeKind.comment data) => data
            | _ => [],
          emptyLineAfter :=
            match p.2 with
            | Option.some i =>
                decide (2 < (((((siblings.get? i).map rawTextOf).getD []).splitOn '\n').length))
            | Option.none => false }
      (infos.reverse, siblings2)

/-- assignCommentsToNodes of the source: reattach the comment above each
extracted section, removing it from the markup children. -/
def assignCommentsToNodes (ast : ASTNode) : ASTNode :=
  let step := fun (a : ASTNode) (part : Option ScriptPart)
      (put : ASTNode → Option ScriptPart → ASTNode) =>
    match part with
    | Option.some p =>
        match removeAndGetLeadingComments (childrenOf a.html) p.start with
        | (infos, newChildren) =>
            put { a with html := setChildren a.html newChildren }
              (Option.some { p with comments := infos })
    | Option.none => a
  let a1 := step ast ast.moduleScript fun a p => { a with moduleScript := p }
  let a2 := step a1 a1.instanceScript fun a p => { a with instanceScript := p }
  step a2 a2.css fun a p => { a with css := p }

/-- The node spliced into the markup children when reordering is disabled:
the extracted section at its source position, printed by the embed
collaborator. -/
def partNode (p : ScriptPart) : Node :=
  Node.mk p.start p.endPos (NodeKind.scriptOrStyle p.embedDoc)

/-- The source-order reinsertion of extracted sections when the sort order
is none: a section whose end offset equals a child start offset is
spliced in before that child. -/
def insertParts (partsByEnd : List ScriptPart) : List Node → List Node
  | [] => []
  | c :: rest =>
      match partsByEnd.find? fun p => p.endPos = c.start with
      | Option.some p =>
          partNode p :: c :: insertParts (partsByEnd.eraseP fun q => q.endPos = c.start) rest
      | Option.none => c :: insertParts partsByEnd rest

/-- JS truthiness of a document: only the empty string is falsy. -/
def docTruthy : Doc → Bool
  | Doc.text [] => false
  | _ => true

/-- Modelled from the spec: the in-place right trim applied to the last
document when embedded in markdown: trailing line-like parts of a
composite document are dropped; a bare line is unaffected because only
the temporary array of the source would be mutated. -/
def trimRightInPlace (p : Doc → Bool) (d : Doc) : Doc :=
  match d with
  | Doc.concat parts => Doc.concat (docTrimRight p parts)
  | Doc.fill parts => Doc.fill (docTrimRight p parts)
  | other => other

/-- The start offsets of the root embeds consulted by
doesEmbedStartAfterNode: style, markup, instance script, module script. -/
def rootEmbedStarts (ast : ASTNode) : List Nat :=
  ((ast.css.map ScriptPart.start).toList) ++ [ast.html.start] ++
    ((ast.instanceScript.map ScriptPart.start).toList) ++
    ((ast.moduleScript.map ScriptPart.start).toList)

/-- The context of the root markup fragment: its children are top-level
html. -/
def rootCtx (ast : ASTNode) : Ctx :=
  { insidePre := false, parentTag := ParentTag.otherParent, topLevel := false,
    childrenTopLevel := true, embedStarts := rootEmbedStarts ast,
    nextSibling := Option.none, nextNextStart := Option.none }

/-- printTopLevelParts of the source: with sort order none the sections
are spliced back in source order and the markup is printed once;
otherwise each section is printed independently, the documents are
concatenated in the configured order joined by hard lines, and the three
process-wide values are reset before returning. -/
def printTopLevelParts (fuel : Nat) (opts : Options) (ast : ASTNode) (st : GState) :
    Except PrintErr (Doc × GState) :=
  match opts.sortOrder with
  | SvelteSortOrder.none => do
      let partsByEnd :=
        (ast.moduleScript.toList) ++ (ast.instanceScript.toList) ++ (ast.css.toList)
      let html2 := setChildren ast.html (insertParts partsByEnd (childrenOf ast.html))
      let (result, st1) ← printNode fuel opts (rootCtx ast) html2 st
      if opts.insertPragma && !hasPragma opts.originalText then
        Except.ok (Doc.concat [str "<!-- @format -->", Doc.hardline, result], st1)
      else
        Except.ok (result, st1)
  | SvelteSortOrder.order ord => do
      let scripts :=
        ((ast.moduleScript.map ScriptPart.embedDoc).toList) ++
          ((ast.instanceScript.map ScriptPart.embedDoc).toList)
      let styles := (ast.css.map ScriptPart.embedDoc).toList
      let (htmlDoc, st1) ← printNode fuel opts (rootCtx ast) ast.html st
      let markup := if docTruthy htmlDoc then [htmlDoc] else []
      let optionsPart :=
        match st1.svelteOptionsDoc with
        | Option.some d => [d]
        | Option.none => []
      let partsOf : SortOrderPart → List Doc := fun p =>
        match p with
        | SortOrderPart.options => optionsPart
        | SortOrderPart.scripts => scripts
        | SortOrderPart.markup => markup
        | SortOrderPart.styles => styles
      let docs := (ord.map partsOf).flatten
      -- Need to reset these because they are global and could affect the
      -- next formatting run
      let st2 : GState :=
        { ignoreNext := false, ignoreRange := false, svelteOptionsDoc := Option.none }
      let docs2 :=
        if opts.parentParserIsMarkdown then
          (docs.reverse.modifyHead (trimRightInPlace isLineDoc)).reverse
        else docs
      if opts.insertPragma && !hasPragma opts.originalText then
        Except.ok (Doc.concat [str "<!-- @format -->", Doc.hardline, groupConcat docs2], st2)
      else
        Except.ok (groupConcat [Doc.concat (joinDocs Doc.hardline docs2)], st2)

/-- The root branch of the print function: reattach section comments, then
reorder and print the top-level parts. -/
def printRoot (fuel : Nat) (opts : Options) (ast : ASTNode) (st : GState) :
    Except PrintErr (Doc × GState) :=
  printTopLevelParts fuel opts (assignCommentsToNodes ast) st

/-- A document that is a concat whose final part is the forced-break
marker. -/
def endsWithBreakParent : Doc → Bool
  | Doc.concat l =>
      (match l.getLast? with
       | Option.some Doc.breakParent => true
       | _ => false)
  | _ => false

/-! ## Sample configurations used by concrete instances -/

/-- A default configuration: reordering on, non-strict, shorthand allowed. -/
def sampleOpts : Options :=
  { sortOrder := SvelteSortOrder.order
      [SortOrderPart.scripts, SortOrderPart.markup, SortOrderPart.styles],
    strictMode := false, allowShorthand := true, bracketSameLine := false,
    insertPragma := false, parentParserIsMarkdown := false, originalText := [] }

/-- The clean state at the start of an invocation. -/
def cleanState : GState :=
  { ignoreNext := false, ignoreRange := false, svelteOptionsDoc := Option.none }

/-! ## Concrete inputs for the suppression-state runs -/

/-- Decidable equality of print results over decidable payloads. -/
instance instDecEqExcept {ε α : Type} [DecidableEq ε] [DecidableEq α] :
    DecidableEq (Except ε α) := fun a b =>
  match a, b with
  | Except.ok x, Except.ok y =>
      if h : x = y then Decidable.isTrue (by rw [h]) else Decidable.isFalse (by simp [h])
  | Except.error x, Except.error y =>
      if h : x = y then Decidable.isTrue (by rw [h]) else Decidable.isFalse (by simp [h])
  | Except.ok _, Except.error _ => Decidable.isFalse (by simp)
  | Except.error _, Except.ok _ => Decidable.isFalse (by simp)

/-- Projection of a print result to its state component. -/
def resultState (p : Doc × GState) : GState := p.2

/-- The constant clean-state projection. -/
def constClean (_ : Doc × GState) : GState := cleanState

/-- Projection of a print result to the suppression flags and whether an
options document is pending. -/
def stateFlags (p : Doc × GState) : Bool × Bool × Bool :=
  (p.2.ignoreNext, p.2.ignoreRange, p.2.svelteOptionsDoc.isSome)

/-- Projection of a print result to its flat rendering. -/
def flatOut (p : Doc × GState) : List Char := flatRender p.1

/-- The configuration with reordering disabled. -/
def c3optsNone : Options := { sampleOpts with sortOrder := SvelteSortOrder.none }

/-- A document whose markup is a single top-level ignore-next directive
comment. -/
def c3astIgnore : ASTNode :=
  { html := Node.mk 0 30 (NodeKind.fragment
      [Node.mk 2 28 (NodeKind.comment (S " prettier-ignore "))]),
    moduleScript := Option.none, instanceScript := Option.none, css := Option.none }

/-- The configuration of the follow-up document. -/
def c3optsNext : Options :=
  { c3optsNone with originalText := S "01234\x7b  x \x7d9xyzabcde" }

/-- A second, independent document: one mustache tag. -/
def c3astNext : ASTNode :=
  { html := Node.mk 0 20 (NodeKind.fragment
      [Node.mk 5 11 (NodeKind.mustacheTag (Expr.ident (S "x")))]),
    moduleScript := Option.none, instanceScript := Option.none, css := Option.none }

/-- The state leaked by the first invocation of the counterexample. -/
def leakedState : GState :=
  { ignoreNext := true, ignoreRange := false, svelteOptionsDoc := Option.none }

/-! ## Concrete inputs for the top-level reorder runs -/

/-- Markup fragment used for the top-level reorder runs: a fragment
holding one text child. -/
def c8html : Node :=
  Node.mk 200 220 (NodeKind.fragment [Node.mk 205 207 (NodeKind.text (S "hi"))])

/-- A root value with the given module, instance and style section
documents around [[c8html]]. -/
def c8astOf (m i c : Doc) : ASTNode :=
  { html := c8html
    moduleScript := Option.some { start := 0, endPos := 50, embedDoc := m, comments := [] }
    instanceScript := Option.some { start := 60, endPos := 110, embedDoc := i, comments := [] }
    css := Option.some { start := 120, endPos := 180, embedDoc := c, comments := [] } }

def c8ast : ASTNode := c8astOf (str "MOD") (str "INST") (str "CSS")

/-- Options with sort order styles, scripts, markup. -/
def c8opts : Options :=
  { sampleOpts with
    sortOrder := SvelteSortOrder.order
      [SortOrderPart.styles, SortOrderPart.scripts, SortOrderPart.markup] }

def c8optsP : Options := { c8opts with insertPragma := true }

/-- Options with the default sort order scripts, markup, styles. -/
def c8optsDef : Options :=
  { sampleOpts with
    sortOrder := SvelteSortOrder.order
      [SortOrderPart.scripts, SortOrderPart.markup, SortOrderPart.styles] }

/-- The rendering of [[c8html]] at the top level. -/
def c8markupDoc : Doc :=
  Doc.group (Doc.concat [Doc.concat [Doc.fill [Doc.text (S "hi")]], Doc.hardline])

/-! ## Word-document shape lemmas -/

/-- The filter predicate of splitTextToDocs: drop empty string atoms,
keep everything else. -/
def keepDoc : Doc → Bool
  | Doc.text [] => false
  | _ => true

/-- The words-and-lines list built by splitTextToDocs before the edge
adjustments. -/
def wordDocs (text : List Char) : List Doc :=
  (joinDocs Doc.line ((splitWS text).map Doc.text)).filter keepDoc

theorem isSplitWS_isWSjs {c : Char} (h : isSplitWS c = true) : isWSjs c = true := by
  simp only [isSplitWS, Bool.or_eq_true, decide_eq_true_eq] at h
  simp only [isWSjs, Bool.or_eq_true, decide_eq_true_eq]
  tauto

/-! ## Lemmas: the verbatim slice reconstructs the source -/

theorem verbatimParts_nil : verbatimParts [] = [] := rfl

theorem enumFrom_map_verbatim (k : Nat) (rest : List (List Char)) :
    (List.enumFrom (k + 1) rest).map
        (fun p => if p.1 = 0 then [Doc.text p.2] else [Doc.literalline, Doc.text p.2]) =
      rest.map fun o => [Doc.literalline, Doc.text o] := by
  induction rest generalizing k with
  | nil => rfl
  | cons y t ih =>
      simp only [List.enumFrom, List.map_cons]
      rw [ih (k + 1)]
      simp

theorem verbatimParts_cons (x : List Char) (rest : List (List Char)) :
    verbatimParts (x :: rest) =
      Doc.text x :: (rest.map fun o => [Doc.literalline, Doc.text o]).flatten := by
  unfold verbatimParts
  rw [List.enum_cons]
  simp only [List.map_cons, List.flatten_cons, reduceIte]
  rw [show (1 : Nat) = 0 + 1 from rfl, enumFrom_map_verbatim 0 rest]
  rfl

theorem flat_tail (rest : List (List Char)) :
    flatRenderList ((rest.map fun o => [Doc.literalline, Doc.text o]).flatten) =
      (rest.map fun o => '\n' :: o).flatten := by
  induction rest with
  | nil => rfl
  | cons y t ih =>
      simp only [List.map_cons, List.flatten_cons]
      show flatRenderList (Doc.literalline :: Doc.text y ::
        (t.map fun o => [Doc.literalline, Doc.text o]).flatten) = _
      show flatRender Doc.literalline ++ (flatRender (Doc.text y) ++
        flatRenderList ((t.map fun o => [Doc.literalline, Doc.text o]).flatten)) = _
      rw [ih]
      rfl

theorem intercalate_newline_cons (x : List Char) (rest : List (List Char)) :
    List.intercalate ['\n'] (x :: rest) = x ++ (rest.map fun o => '\n' :: o).flatten := by
  induction rest generalizing x with
  | nil => simp [List.intercalate]
  | cons y t ih =>
      rw [List.intercalate, List.intersperse_cons_cons, List.flatten_cons, List.flatten_cons]
      have := ih y
      rw [List.intercalate] at this
      rw [this]
      simp

theorem flat_verbatim (ls : List (List Char)) :
    flatRenderList (verbatimParts ls) = List.intercalate ['\n'] ls := by
  cases ls with
  | nil => simp [verbatimParts_nil, List.intercalate]; rfl
  | cons x rest =>
      rw [verbatimParts_cons, intercalate_newline_cons]
      show flatRender (Doc.text x) ++ _ = _
      rw [flat_tail]
      rfl

theorem printIgnoredDoc_render (opts : Options) (n : Node) :
    flatRender (printIgnoredDoc opts n) = sliceText opts.originalText n.start n.endPos := by
  show flatRenderList (verbatimParts ((sliceText opts.originalText n.start n.endPos).splitOn '\n')) = _
  rw [flat_verbatim]
  exact List.intercalate_splitOn _ '\n'

/-! ## C1 -/

/-- C1: while suppression is active (ignoreNext set, or ignoreRange set and
the node is not the range-end directive) and the node is not a
whitespace-only Text node, print returns the source slice from the node
start offset to its end offset verbatim, split on newlines and re-joined
with literal line breaks (so its flat rendering is byte-identical to the
slice); a whitespace-only Text node is printed by the normal rules even
while a range is active. -/
theorem c1_suppression_emits_source_verbatim :
    (∀ (fuel : Nat) (opts : Options) (ctx : Ctx) (n : Node) (st : GState),
        suppressionApplies st n = true →
        printNode (fuel + 1) opts ctx n st =
          Except.ok (printIgnoredDoc opts n,
            if st.ignoreNext then { st with ignoreNext := false } else st) ∧
        flatRender (printIgnoredDoc opts n) =
          sliceText opts.originalText n.start n.endPos) ∧
    (∀ (fuel : Nat) (opts : Options) (ctx : Ctx) (s e : Nat) (raw : List Char) (o : Option Doc),
        jsTrim raw = [] → ctx.insidePre = false →
        (printNode (fuel + 1) opts ctx (Node.mk s e (NodeKind.text raw))
            { ignoreNext := false, ignoreRange := true, svelteOptionsDoc := o }).map Prod.fst =
          (printNode (fuel + 1) opts ctx (Node.mk s e (NodeKind.text raw))
            { ignoreNext := false, ignoreRange := false, svelteOptionsDoc := o }).map Prod.fst ∧
        (printNode (fuel + 1) opts ctx (Node.mk s e (NodeKind.text raw))
            { ignoreNext := false, ignoreRange := true, svelteOptionsDoc := o }).map Prod.snd =
          Except.ok { ignoreNext := false, ignoreRange := true, svelteOptionsDoc := o }) := by
  constructor
  · intro fuel opts ctx n st h
    refine ⟨?_, printIgnoredDoc_render opts n⟩
    simp only [printNode, h, reduceIte]
  · intro fuel opts ctx s e raw o hws hpre
    have hgate : ∀ b : Bool,
        suppressionApplies { ignoreNext := false, ignoreRange := b, svelteOptionsDoc := o }
          (Node.mk s e (NodeKind.text raw)) = false := by
      intro b
      simp [suppressionApplies, isTextNode, isEmptyTextNode, Node.kind, hws]
    refine ⟨?_, ?_⟩ <;> simp [printNode, hgate, Node.kind, Except.map]

/-- Witness for C1: a concrete mustache tag under ignoreNext prints the
source slice between its offsets, and a concrete whitespace-only text
node under an active range prints by the normal rules. -/
theorem c1_witness :
    suppressionApplies { ignoreNext := true, ignoreRange := false, svelteOptionsDoc := Option.none }
        (Node.mk 5 11 (NodeKind.mustacheTag (Expr.ident (S "x")))) = true ∧
    printNode 3 { sampleOpts with originalText := S "01234\x7b x\n \x7d9xyz" } Ctx.base
        (Node.mk 5 11 (NodeKind.mustacheTag (Expr.ident (S "x"))))
        { ignoreNext := true, ignoreRange := false, svelteOptionsDoc := Option.none } =
      Except.ok (printIgnoredDoc { sampleOpts with originalText := S "01234\x7b x\n \x7d9xyz" }
          (Node.mk 5 11 (NodeKind.mustacheTag (Expr.ident (S "x")))),
        cleanState) ∧
    flatRender (printIgnoredDoc { sampleOpts with originalText := S "01234\x7b x\n \x7d9xyz" }
        (Node.mk 5 11 (NodeKind.mustacheTag (Expr.ident (S "x"))))) = S "\x7b x\n \x7d" ∧
    (printNode 3 sampleOpts Ctx.base (Node.mk 0 2 (NodeKind.text (S "  ")))
        { ignoreNext := false, ignoreRange := true, svelteOptionsDoc := Option.none }).map Prod.fst =
      (printNode 3 sampleOpts Ctx.base (Node.mk 0 2 (NodeKind.text (S "  ")))
        cleanState).map Prod.fst := by
  have h1 := c1_suppression_emits_source_verbatim.1 2
    { sampleOpts with originalText := S "01234\x7b x\n \x7d9xyz" } Ctx.base
    (Node.mk 5 11 (NodeKind.mustacheTag (Expr.ident (S "x"))))
    { ignoreNext := true, ignoreRange := false, svelteOptionsDoc := Option.none }
    (by decide)
  have h2 := c1_suppression_emits_source_verbatim.2 2 sampleOpts Ctx.base 0 2 (S "  ")
    Option.none (by decide) (by decide)
  refine ⟨by decide, ?_, ?_, h2.1⟩
  · exact h1.1
  · rw [h1.2]; decide

/-! ## C10 -/

/-- C10: dispatching an Options node while the configured sort order is
not none raises the internal-invariant error immediately; with sort order
none the same node renders as a self-closing tag without error. -/
theorem c10_options_node_invariant :
    (∀ (fuel : Nat) (opts : Options) (ctx : Ctx) (s e : Nat) (name : List Char)
        (attributes : List Node) (o : Option Doc),
        opts.sortOrder ≠ SvelteSortOrder.none →
        printNode (fuel + 1) opts ctx (Node.mk s e (NodeKind.optionsTag name attributes))
            { ignoreNext := false, ignoreRange := false, svelteOptionsDoc := o } =
          Except.error
            (PrintErr.message (S "Options tags should have been handled by prepareChildren"))) ∧
    (∀ (fuel : Nat) (opts : Options) (ctx : Ctx) (s e : Nat) (name : List Char)
        (attributes : List Node) (o : Option Doc) (ads : List Doc) (st1 : GState),
        opts.sortOrder = SvelteSortOrder.none →
        printKids fuel opts (childBase ctx ctx.insidePre ParentTag.otherParent false) attributes
            { ignoreNext := false, ignoreRange := false, svelteOptionsDoc := o } =
          Except.ok (ads, st1) →
        printNode (fuel + 1 + 1) opts ctx (Node.mk s e (NodeKind.optionsTag name attributes))
            { ignoreNext := false, ignoreRange := false, svelteOptionsDoc := o } =
          Except.ok
            (Doc.group (Doc.concat
              [str "<", Doc.text name,
               Doc.indent (Doc.group (Doc.concat
                 ((ads.map fun d => Doc.concat [Doc.line, d]) ++
                   [if opts.bracketSameLine then str "" else Doc.dedent Doc.line]))),
               Doc.text (if opts.bracketSameLine then S " " else []),
               str "/>"]), st1)) := by
  constructor
  · intro fuel opts ctx s e name attributes o hsort
    simp [printNode, suppressionApplies, isTextNode, isEmptyTextNode, Node.kind, hsort]
  · intro fuel opts ctx s e name attributes o ads st1 hsort hk
    simp [printNode, printVoidTagCase, suppressionApplies, isTextNode, isEmptyTextNode,
      Node.kind, hsort, hk, voidTagDoc, groupConcat, prependAttrLine, attributeLine,
      Bind.bind, Except.bind]

/-- Witness for C10: a concrete svelte:options node errors under the
default sort order and renders as a self-closing tag under sort order
none. -/
theorem c10_witness :
    sampleOpts.sortOrder ≠ SvelteSortOrder.none ∧
    printNode 3 sampleOpts Ctx.base
        (Node.mk 0 0 (NodeKind.optionsTag (S "svelte:options") [])) cleanState =
      Except.error
        (PrintErr.message (S "Options tags should have been handled by prepareChildren")) ∧
    ({ sampleOpts with sortOrder := SvelteSortOrder.none } : Options).sortOrder =
      SvelteSortOrder.none ∧
    printNode 4 { sampleOpts with sortOrder := SvelteSortOrder.none } Ctx.base
        (Node.mk 0 0 (NodeKind.optionsTag (S "svelte:options") [])) cleanState =
      Except.ok
        (Doc.group (Doc.concat
          [str "<", Doc.text (S "svelte:options"),
           Doc.indent (Doc.group (Doc.concat [Doc.dedent Doc.line])),
           Doc.text [], str "/>"]), cleanState) := by
  refine ⟨by decide, ?_, by decide, ?_⟩
  · exact c10_options_node_invariant.1 2 sampleOpts Ctx.base 0 0 (S "svelte:options") []
      Option.none (by decide)
  · have h := c10_options_node_invariant.2 2 { sampleOpts with sortOrder := SvelteSortOrder.none }
      Ctx.base 0 0 (S "svelte:options") [] Option.none [] cleanState (by decide) (by rfl)
    simpa using h

/-! ## C6 -/

/-- C6: an Attribute whose value is a lone mustache tag over a bare
identifier equal to the attribute name renders as the quoted literal form
in strict mode, as the bracket shorthand when strict mode is off and
shorthand is allowed, and as the explicit form otherwise. -/
theorem c6_attribute_shorthand_three_way
    (fuel : Nat) (opts : Options) (ctx : Ctx) (s e ms me : Nat) (name : List Char)
    (o : Option Doc) :
    printNode (fuel + 1 + 1) opts ctx
        (Node.mk s e (NodeKind.attribute name
          (AttrValue.nodes [Node.mk ms me (NodeKind.mustacheTag (Expr.ident name))])))
        { ignoreNext := false, ignoreRange := false, svelteOptionsDoc := o } =
      Except.ok
        ((if opts.strictMode then
            Doc.concat [Doc.text name, str "=\"\x7b", Doc.text name, str "\x7d\""]
          else if opts.allowShorthand then
            Doc.concat [str "\x7b", Doc.text name, str "\x7d"]
          else
            Doc.concat [Doc.text name, str "=\x7b", Doc.text name, str "\x7d"]),
         { ignoreNext := false, ignoreRange := false, svelteOptionsDoc := o }) := by
  simp [printNode, printAttributeCase, suppressionApplies, isTextNode, isEmptyTextNode,
    Node.kind, isOrCanBeConvertedToShorthand, attributeShorthandForms]

/-- With both suppression flags clear, the format-suppression gate never
fires. -/
theorem gate_clean (n : Node) (o : Option Doc) :
    suppressionApplies { ignoreNext := false, ignoreRange := false, svelteOptionsDoc := o } n =
      false := by
  simp [suppressionApplies]

/-! ## C5 -/

/-- C5: an ElseBlock whose only child is an IfBlock renders as the
chained else-if form (its condition, its block children, then the else
chain of the inner if, if any) when the parent node is not an EachBlock,
with no nested else or if delimiters; when the parent is an EachBlock
the collapse is suppressed and the block renders as a plain else
followed by its children. -/
theorem c5_else_if_chain_unless_each_parent :
    (∀ (fuel : Nat) (opts : Options) (ctx : Ctx) (s e is ie : Nat) (ife : Expr)
        (ifchildren : List Node) (o : Option Doc) (bc : Doc) (st1 : GState),
        ctx.parentTag ≠ ParentTag.eachBlockParent →
        printSvelteBlockChildrenF fuel opts
            (childBase ctx ctx.insidePre ParentTag.otherParent false) ifchildren
            { ignoreNext := false, ignoreRange := false, svelteOptionsDoc := o } =
          Except.ok (bc, st1) →
        printNode (fuel + 1 + 1) opts ctx
            (Node.mk s e (NodeKind.elseBlock
              [Node.mk is ie (NodeKind.ifBlock ife ifchildren Option.none)]))
            { ignoreNext := false, ignoreRange := false, svelteOptionsDoc := o } =
          Except.ok (Doc.concat [str "\x7b:else if ", printExpr ife, str "\x7d", bc], st1)) ∧
    (∀ (fuel : Nat) (opts : Options) (ctx : Ctx) (s e is ie : Nat) (ife : Expr)
        (ifchildren : List Node) (en : Node) (o : Option Doc) (bc ed : Doc) (st1 st2 : GState),
        ctx.parentTag ≠ ParentTag.eachBlockParent →
        printSvelteBlockChildrenF fuel opts
            (childBase ctx ctx.insidePre ParentTag.otherParent false) ifchildren
            { ignoreNext := false, ignoreRange := false, svelteOptionsDoc := o } =
          Except.ok (bc, st1) →
        printNode fuel opts (childBase ctx ctx.insidePre ParentTag.otherParent false) en st1 =
          Except.ok (ed, st2) →
        printNode (fuel + 1 + 1) opts ctx
            (Node.mk s e (NodeKind.elseBlock
              [Node.mk is ie (NodeKind.ifBlock ife ifchildren (Option.some en))]))
            { ignoreNext := false, ignoreRange := false, svelteOptionsDoc := o } =
          Except.ok (Doc.concat [str "\x7b:else if ", printExpr ife, str "\x7d", bc, ed], st2)) ∧
    (∀ (fuel : Nat) (opts : Options) (ctx : Ctx) (s e : Nat) (children : List Node)
        (o : Option Doc) (bc : Doc) (st1 : GState),
        ctx.parentTag = ParentTag.eachBlockParent →
        printSvelteBlockChildrenF fuel opts
            (childBase ctx ctx.insidePre ParentTag.otherParent false) children
            { ignoreNext := false, ignoreRange := false, svelteOptionsDoc := o } =
          Except.ok (bc, st1) →
        printNode (fuel + 1 + 1) opts ctx (Node.mk s e (NodeKind.elseBlock children))
            { ignoreNext := false, ignoreRange := false, svelteOptionsDoc := o } =
          Except.ok (Doc.concat [str "\x7b:else\x7d", bc], st1)) := by
  refine ⟨?_, ?_, ?_⟩
  · intro fuel opts ctx s e is ie ife ifchildren o bc st1 hpt hsb
    have hd : decide (ctx.parentTag = ParentTag.eachBlockParent) = false := decide_eq_false hpt
    simp only [printNode, gate_clean, Node.kind, Bool.false_eq_true, if_false]
    simp [printElseBlockCase, elseIfChild, hd, hsb, Bind.bind, Except.bind]
  · intro fuel opts ctx s e is ie ife ifchildren en o bc ed st1 st2 hpt hsb hen
    have hd : decide (ctx.parentTag = ParentTag.eachBlockParent) = false := decide_eq_false hpt
    simp only [printNode, gate_clean, Node.kind, Bool.false_eq_true, if_false]
    simp [printElseBlockCase, elseIfChild, hd, hsb, hen, Bind.bind, Except.bind]
  · intro fuel opts ctx s e children o bc st1 hpt hsb
    have hd : decide (ctx.parentTag = ParentTag.eachBlockParent) = true := decide_eq_true hpt
    simp only [printNode, gate_clean, Node.kind, Bool.false_eq_true, if_false]
    cases helse : elseIfChild children with
    | none => simp [printElseBlockCase, helse, hd, hsb, Bind.bind, Except.bind]
    | some trip => simp [printElseBlockCase, helse, hd, hsb, Bind.bind, Except.bind]

/-- Witness for C5: a concrete else block holding one if block chains to
else-if under a non-each parent and stays nested under an each parent. -/
theorem c5_witness :
    Ctx.base.parentTag ≠ ParentTag.eachBlockParent ∧
    printNode 12 sampleOpts Ctx.base
        (Node.mk 0 0 (NodeKind.elseBlock
          [Node.mk 0 0 (NodeKind.ifBlock (Expr.ident (S "y"))
            [Node.mk 0 0 (NodeKind.text (S "B"))] Option.none)])) cleanState =
      Except.ok (Doc.concat [str "\x7b:else if ", printExpr (Expr.ident (S "y")), str "\x7d",
        Doc.concat [Doc.indent (Doc.concat [Doc.text (S ""),
          Doc.group (Doc.concat [Doc.fill [Doc.text (S "B")]])]), Doc.text (S "")]],
        cleanState) ∧
    printNode 12 sampleOpts { Ctx.base with parentTag := ParentTag.eachBlockParent }
        (Node.mk 0 0 (NodeKind.elseBlock
          [Node.mk 0 0 (NodeKind.ifBlock (Expr.ident (S "y"))
            [Node.mk 0 0 (NodeKind.text (S "B"))] Option.none)])) cleanState =
      Except.ok (Doc.concat [str "\x7b:else\x7d",
        Doc.concat [Doc.indent (Doc.concat [Doc.text (S ""),
          Doc.group (Doc.concat [Doc.concat [Doc.group (Doc.concat
            [Doc.text (S "\x7b#if "), Doc.text (S "y"), Doc.text (S "\x7d"),
             Doc.concat [Doc.indent (Doc.concat [Doc.text (S ""),
               Doc.group (Doc.concat [Doc.fill [Doc.text (S "B")]])]), Doc.text (S "")],
             Doc.text (S "\x7b/if\x7d")]), Doc.breakParent]])]), Doc.text (S "")]],
        cleanState) := by
  refine ⟨by decide, ?_, ?_⟩
  · exact c5_else_if_chain_unless_each_parent.1 10 sampleOpts Ctx.base 0 0 0 0
      (Expr.ident (S "y")) [Node.mk 0 0 (NodeKind.text (S "B"))] Option.none _ _
      (by decide) (by rfl)
  · exact c5_else_if_chain_unless_each_parent.2.2 10 sampleOpts
      { Ctx.base with parentTag := ParentTag.eachBlockParent } 0 0
      [Node.mk 0 0 (NodeKind.ifBlock (Expr.ident (S "y"))
        [Node.mk 0 0 (NodeKind.text (S "B"))] Option.none)] Option.none _ _
      (by decide) (by rfl)

/-! ## C4 -/

/-- C4: the AwaitBlock shape is selected by which of the pending, then
and catch child-blocks contain at least one non-whitespace child: with no
pending content and then content the short await-then form; with neither
pending nor then content but catch content the short await-catch form;
otherwise the full form, where the pending body, the then delimiter and
the catch delimiter each appear exactly when the corresponding block has
non-whitespace content — an empty pending block is never rendered.  All
eight content profiles are enumerated. -/
theorem c4_await_block_shapes :
    (∀ (fuel : Nat) (opts : Options) (ctx : Ctx) (s e0 ps pe ts te cs ce : Nat) (e : Expr)
        (value errPat : Option Expr) (pendCs thenCs catchCs : List Node) (o : Option Doc)
        (td : Doc) (st1 : GState),
        pendCs.any (fun c => !isEmptyTextNode c) = false →
        thenCs.any (fun c => !isEmptyTextNode c) = true →
        catchCs.any (fun c => !isEmptyTextNode c) = false →
        printNode fuel opts (childBase ctx ctx.insidePre ParentTag.otherParent false)
          (Node.mk ts te (NodeKind.thenBlock thenCs)) { ignoreNext := false, ignoreRange := false, svelteOptionsDoc := o } =
          Except.ok (td, st1) →
        printNode (fuel + 1 + 1) opts ctx
            (Node.mk s e0 (NodeKind.awaitBlock e value errPat
              (Node.mk ps pe (NodeKind.pendingBlock pendCs))
              (Node.mk ts te (NodeKind.thenBlock thenCs))
              (Node.mk cs ce (NodeKind.catchBlock catchCs))))
            { ignoreNext := false, ignoreRange := false, svelteOptionsDoc := o } =
          Except.ok (Doc.group (Doc.concat
             [Doc.group (Doc.concat [str "\x7b#await ", printExpr e, str " then", Doc.text (expandNode value), str "\x7d"]),
             td,
             str "\x7b/await\x7d"]), st1)) ∧
    (∀ (fuel : Nat) (opts : Options) (ctx : Ctx) (s e0 ps pe ts te cs ce : Nat) (e : Expr)
        (value errPat : Option Expr) (pendCs thenCs catchCs : List Node) (o : Option Doc)
        (td cd : Doc) (st1 st2 : GState),
        pendCs.any (fun c => !isEmptyTextNode c) = false →
        thenCs.any (fun c => !isEmptyTextNode c) = true →
        catchCs.any (fun c => !isEmptyTextNode c) = true →
        printNode fuel opts (childBase ctx ctx.insidePre ParentTag.otherParent false)
          (Node.mk ts te (NodeKind.thenBlock thenCs)) { ignoreNext := false, ignoreRange := false, svelteOptionsDoc := o } =
          Except.ok (td, st1) →
        printNode fuel opts (childBase ctx ctx.insidePre ParentTag.otherParent false)
          (Node.mk cs ce (NodeKind.catchBlock catchCs)) st1 =
          Except.ok (cd, st2) →
        printNode (fuel + 1 + 1) opts ctx
            (Node.mk s e0 (NodeKind.awaitBlock e value errPat
              (Node.mk ps pe (NodeKind.pendingBlock pendCs))
              (Node.mk ts te (NodeKind.thenBlock thenCs))
              (Node.mk cs ce (NodeKind.catchBlock catchCs))))
            { ignoreNext := false, ignoreRange := false, svelteOptionsDoc := o } =
          Except.ok (Doc.group (Doc.concat
             [Doc.group (Doc.concat [str "\x7b#await ", printExpr e, str " then", Doc.text (expandNode value), str "\x7d"]),
             td,
             Doc.group (Doc.concat [str "\x7b:catch", Doc.text (expandNode errPat), str "\x7d"]),
             cd,
             str "\x7b/await\x7d"]), st2)) ∧
    (∀ (fuel : Nat) (opts : Options) (ctx : Ctx) (s e0 ps pe ts te cs ce : Nat) (e : Expr)
        (value errPat : Option Expr) (pendCs thenCs catchCs : List Node) (o : Option Doc)
        (cd : Doc) (st1 : GState),
        pendCs.any (fun c => !isEmptyTextNode c) = false →
        thenCs.any (fun c => !isEmptyTextNode c) = false →
        catchCs.any (fun c => !isEmptyTextNode c) = true →
        printNode fuel opts (childBase ctx ctx.insidePre ParentTag.otherParent false)
          (Node.mk cs ce (NodeKind.catchBlock catchCs)) { ignoreNext := false, ignoreRange := false, svelteOptionsDoc := o } =
          Except.ok (cd, st1) →
        printNode (fuel + 1 + 1) opts ctx
            (Node.mk s e0 (NodeKind.awaitBlock e value errPat
              (Node.mk ps pe (NodeKind.pendingBlock pendCs))
              (Node.mk ts te (NodeKind.thenBlock thenCs))
              (Node.mk cs ce (NodeKind.catchBlock catchCs))))
            { ignoreNext := false, ignoreRange := false, svelteOptionsDoc := o } =
          Except.ok (Doc.group (Doc.concat
             [Doc.group (Doc.concat [str "\x7b#await ", printExpr e, str " catch", Doc.text (expandNode errPat), str "\x7d"]),
             cd,
             str "\x7b/await\x7d"]), st1)) ∧
    (∀ (fuel : Nat) (opts : Options) (ctx : Ctx) (s e0 ps pe ts te cs ce : Nat) (e : Expr)
        (value errPat : Option Expr) (pendCs thenCs catchCs : List Node) (o : Option Doc),
        pendCs.any (fun c => !isEmptyTextNode c) = false →
        thenCs.any (fun c => !isEmptyTextNode c) = false →
        catchCs.any (fun c => !isEmptyTextNode c) = false →
        printNode (fuel + 1 + 1) opts ctx
            (Node.mk s e0 (NodeKind.awaitBlock e value errPat
              (Node.mk ps pe (NodeKind.pendingBlock pendCs))
              (Node.mk ts te (NodeKind.thenBlock thenCs))
              (Node.mk cs ce (NodeKind.catchBlock catchCs))))
            { ignoreNext := false, ignoreRange := false, svelteOptionsDoc := o } =
          Except.ok (Doc.group (Doc.concat
             [Doc.group (Doc.concat [str "\x7b#await ", printExpr e, str "\x7d"]),
             str "\x7b/await\x7d"]), { ignoreNext := false, ignoreRange := false, svelteOptionsDoc := o })) ∧
    (∀ (fuel : Nat) (opts : Options) (ctx : Ctx) (s e0 ps pe ts te cs ce : Nat) (e : Expr)
        (value errPat : Option Expr) (pendCs thenCs catchCs : List Node) (o : Option Doc)
        (pd : Doc) (st1 : GState),
        pendCs.any (fun c => !isEmptyTextNode c) = true →
        thenCs.any (fun c => !isEmptyTextNode c) = false →
        catchCs.any (fun c => !isEmptyTextNode c) = false →
        printNode fuel opts (childBase ctx ctx.insidePre ParentTag.otherParent false)
          (Node.mk ps pe (NodeKind.pendingBlock pendCs)) { ignoreNext := false, ignoreRange := false, svelteOptionsDoc := o } =
          Except.ok (pd, st1) →
        printNode (fuel + 1 + 1) opts ctx
            (Node.mk s e0 (NodeKind.awaitBlock e value errPat
              (Node.mk ps pe (NodeKind.pendingBlock pendCs))
              (Node.mk ts te (NodeKind.thenBlock thenCs))
              (Node.mk cs ce (NodeKind.catchBlock catchCs))))
            { ignoreNext := false, ignoreRange := false, svelteOptionsDoc := o } =
          Except.ok (Doc.group (Doc.concat
             [Doc.group (Doc.concat [str "\x7b#await ", printExpr e, str "\x7d"]),
             pd,
             str "\x7b/await\x7d"]), st1)) ∧
    (∀ (fuel : Nat) (opts : Options) (ctx : Ctx) (s e0 ps pe ts te cs ce : Nat) (e : Expr)
        (value errPat : Option Expr) (pendCs thenCs catchCs : List Node) (o : Option Doc)
        (pd td : Doc) (st1 st2 : GState),
        pendCs.any (fun c => !isEmptyTextNode c) = true →
        thenCs.any (fun c => !isEmptyTextNode c) = true →
        catchCs.any (fun c => !isEmptyTextNode c) = false →
        printNode fuel opts (childBase ctx ctx.insidePre ParentTag.otherParent false)
          (Node.mk ps pe (NodeKind.pendingBlock pendCs)) { ignoreNext := false, ignoreRange := false, svelteOptionsDoc := o } =
          Except.ok (pd, st1) →
        printNode fuel opts (childBase ctx ctx.insidePre ParentTag.otherParent false)
          (Node.mk ts te (NodeKind.thenBlock thenCs)) st1 =
          Except.ok (td, st2) →
        printNode (fuel + 1 + 1) opts ctx
            (Node.mk s e0 (NodeKind.awaitBlock e value errPat
              (Node.mk ps pe (NodeKind.pendingBlock pendCs))
              (Node.mk ts te (NodeKind.thenBlock thenCs))
              (Node.mk cs ce (NodeKind.catchBlock catchCs))))
            { ignoreNext := false, ignoreRange := false, svelteOptionsDoc := o } =
          Except.ok (Doc.group (Doc.concat
             [Doc.group (Doc.concat [str "\x7b#await ", printExpr e, str "\x7d"]),
             pd,
             Doc.group (Doc.concat [str "\x7b:then", Doc.text (expandNode value), str "\x7d"]),
             td,
             str "\x7b/await\x7d"]), st2)) ∧
    (∀ (fuel : Nat) (opts : Options) (ctx : Ctx) (s e0 ps pe ts te cs ce : Nat) (e : Expr)
        (value errPat : Option Expr) (pendCs thenCs catchCs : List Node) (o : Option Doc)
        (pd cd : Doc) (st1 st2 : GState),
        pendCs.any (fun c => !isEmptyTextNode c) = true →
        thenCs.any (fun c => !isEmptyTextNode c) = false →
        catchCs.any (fun c => !isEmptyTextNode c) = true →
        printNode fuel opts (childBase ctx ctx.insidePre ParentTag.otherParent false)
          (Node.mk ps pe (NodeKind.pendingBlock pendCs)) { ignoreNext := false, ignoreRange := false, svelteOptionsDoc := o } =
          Except.ok (pd, st1) →
        printNode fuel opts (childBase ctx ctx.insidePre ParentTag.otherParent false)
          (Node.mk cs ce (NodeKind.catchBlock catchCs)) st1 =
          Except.ok (cd, st2) →
        printNode (fuel + 1 + 1) opts ctx
            (Node.mk s e0 (NodeKind.awaitBlock e value errPat
              (Node.mk ps pe (NodeKind.pendingBlock pendCs))
              (Node.mk ts te (NodeKind.thenBlock thenCs))
              (Node.mk cs ce (NodeKind.catchBlock catchCs))))
            { ignoreNext := false, ignoreRange := false, svelteOptionsDoc := o } =
          Except.ok (Doc.group (Doc.concat
             [Doc.group (Doc.concat [str "\x7b#await ", printExpr e, str "\x7d"]),
             pd,
             Doc.group (Doc.concat [str "\x7b:catch", Doc.text (expandNode errPat), str "\x7d"]),
             cd,
             str "\x7b/await\x7d"]), st2)) ∧
    (∀ (fuel : Nat) (opts : Options) (ctx : Ctx) (s e0 ps pe ts te cs ce : Nat) (e : Expr)
        (value errPat : Option Expr) (pendCs thenCs catchCs : List Node) (o : Option Doc)
        (pd td cd : Doc) (st1 st2 st3 : GState),
        pendCs.any (fun c => !isEmptyTextNode c) = true →
        thenCs.any (fun c => !isEmptyTextNode c) = true →
        catchCs.any (fun c => !isEmptyTextNode c) = true →
        printNode fuel opts (childBase ctx ctx.insidePre ParentTag.otherParent false)
          (Node.mk ps pe (NodeKind.pendingBlock pendCs)) { ignoreNext := false, ignoreRange := false, svelteOptionsDoc := o } =
          Except.ok (pd, st1) →
        printNode fuel opts (childBase ctx ctx.insidePre ParentTag.otherParent false)
          (Node.mk ts te (NodeKind.thenBlock thenCs)) st1 =
          Except.ok (td, st2) →
        printNode fuel opts (childBase ctx ctx.insidePre ParentTag.otherParent false)
          (Node.mk cs ce (NodeKind.catchBlock catchCs)) st2 =
          Except.ok (cd, st3) →
        printNode (fuel + 1 + 1) opts ctx
            (Node.mk s e0 (NodeKind.awaitBlock e value errPat
              (Node.mk ps pe (NodeKind.pendingBlock pendCs))
              (Node.mk ts te (NodeKind.thenBlock thenCs))
              (Node.mk cs ce (NodeKind.catchBlock catchCs))))
            { ignoreNext := false, ignoreRange := false, svelteOptionsDoc := o } =
          Except.ok (Doc.group (Doc.concat
             [Doc.group (Doc.concat [str "\x7b#await ", printExpr e, str "\x7d"]),
             pd,
             Doc.group (Doc.concat [str "\x7b:then", Doc.text (expandNode value), str "\x7d"]),
             td,
             Doc.group (Doc.concat [str "\x7b:catch", Doc.text (expandNode errPat), str "\x7d"]),
             cd,
             str "\x7b/await\x7d"]), st3)) := by
  refine ⟨?_, ?_, ?_, ?_, ?_, ?_, ?_, ?_⟩
  · intro fuel opts ctx s e0 ps pe ts te cs ce e value errPat pendCs thenCs catchCs o td st1 hp ht hc hthn
    simp only [printNode, gate_clean, Node.kind, Bool.false_eq_true, if_false]
    simp [printAwaitBlockCase, childrenOf, Node.kind, hp, ht, hc, hthn, groupConcat,
      Bind.bind, Except.bind]
  · intro fuel opts ctx s e0 ps pe ts te cs ce e value errPat pendCs thenCs catchCs o td cd st1 st2 hp ht hc hthn hctch
    simp only [printNode, gate_clean, Node.kind, Bool.false_eq_true, if_false]
    simp [printAwaitBlockCase, childrenOf, Node.kind, hp, ht, hc, hthn, hctch, groupConcat,
      Bind.bind, Except.bind]
  · intro fuel opts ctx s e0 ps pe ts te cs ce e value errPat pendCs thenCs catchCs o cd st1 hp ht hc hctch
    simp only [printNode, gate_clean, Node.kind, Bool.false_eq_true, if_false]
    simp [printAwaitBlockCase, childrenOf, Node.kind, hp, ht, hc, hctch, groupConcat,
      Bind.bind, Except.bind]
  · intro fuel opts ctx s e0 ps pe ts te cs ce e value errPat pendCs thenCs catchCs o hp ht hc
    simp only [printNode, gate_clean, Node.kind, Bool.false_eq_true, if_false]
    simp [printAwaitBlockCase, childrenOf, Node.kind, hp, ht, hc, groupConcat,
      Bind.bind, Except.bind]
  · intro fuel opts ctx s e0 ps pe ts te cs ce e value errPat pendCs thenCs catchCs o pd st1 hp ht hc hpend
    simp only [printNode, gate_clean, Node.kind, Bool.false_eq_true, if_false]
    simp [printAwaitBlockCase, childrenOf, Node.kind, hp, ht, hc, hpend, groupConcat,
      Bind.bind, Except.bind]
  · intro fuel opts ctx s e0 ps pe ts te cs ce e value errPat pendCs thenCs catchCs o pd td st1 st2 hp ht hc hpend hthn
    simp only [printNode, gate_clean, Node.kind, Bool.false_eq_true, if_false]
    simp [printAwaitBlockCase, childrenOf, Node.kind, hp, ht, hc, hpend, hthn, groupConcat,
      Bind.bind, Except.bind]
  · intro fuel opts ctx s e0 ps pe ts te cs ce e value errPat pendCs thenCs catchCs o pd cd st1 st2 hp ht hc hpend hctch
    simp only [printNode, gate_clean, Node.kind, Bool.false_eq_true, if_false]
    simp [printAwaitBlockCase, childrenOf, Node.kind, hp, ht, hc, hpend, hctch, groupConcat,
      Bind.bind, Except.bind]
  · intro fuel opts ctx s e0 ps pe ts te cs ce e value errPat pendCs thenCs catchCs o pd td cd st1 st2 st3 hp ht hc hpend hthn hctch
    simp only [printNode, gate_clean, Node.kind, Bool.false_eq_true, if_false]
    simp [printAwaitBlockCase, childrenOf, Node.kind, hp, ht, hc, hpend, hthn, hctch, groupConcat,
      Bind.bind, Except.bind]

/-- Witness for C4: a concrete await block with whitespace-only pending
content, a then body and a catch body renders in the short await-then
form followed by the catch delimiter. -/
theorem c4_witness :
    ([Node.mk 0 0 (NodeKind.text (S " "))].any fun c => !isEmptyTextNode c) = false ∧
    ([Node.mk 0 0 (NodeKind.text (S "T"))].any fun c => !isEmptyTextNode c) = true ∧
    ([Node.mk 0 0 (NodeKind.text (S "C"))].any fun c => !isEmptyTextNode c) = true ∧
    printNode 12 sampleOpts Ctx.base
        (Node.mk 0 0 (NodeKind.awaitBlock (Expr.ident (S "p"))
          (Option.some (Expr.ident (S "v"))) (Option.some (Expr.ident (S "er")))
          (Node.mk 0 0 (NodeKind.pendingBlock [Node.mk 0 0 (NodeKind.text (S " "))]))
          (Node.mk 0 0 (NodeKind.thenBlock [Node.mk 0 0 (NodeKind.text (S "T"))]))
          (Node.mk 0 0 (NodeKind.catchBlock [Node.mk 0 0 (NodeKind.text (S "C"))]))))
        cleanState =
      Except.ok (Doc.group (Doc.concat
        [Doc.group (Doc.concat [str "\x7b#await ", printExpr (Expr.ident (S "p")),
           str " then", Doc.text (expandNode (Option.some (Expr.ident (S "v")))), str "\x7d"]),
         Doc.concat [Doc.indent (Doc.concat [Doc.text (S ""), Doc.group (Doc.concat [Doc.fill [Doc.text (S "T")]])]), Doc.text (S "")],
         Doc.group (Doc.concat [str "\x7b:catch",
           Doc.text (expandNode (Option.some (Expr.ident (S "er")))), str "\x7d"]),
         Doc.concat [Doc.indent (Doc.concat [Doc.text (S ""), Doc.group (Doc.concat [Doc.fill [Doc.text (S "C")]])]), Doc.text (S "")],
         str "\x7b/await\x7d"]), cleanState) := by
  refine ⟨by decide, by decide, by decide, ?_⟩
  exact c4_await_block_shapes.2.1 10 sampleOpts Ctx.base 0 0 0 0 0 0 0 0
    (Expr.ident (S "p")) (Option.some (Expr.ident (S "v")))
    (Option.some (Expr.ident (S "er")))
    [Node.mk 0 0 (NodeKind.text (S " "))] [Node.mk 0 0 (NodeKind.text (S "T"))]
    [Node.mk 0 0 (NodeKind.text (S "C"))] Option.none _ _ _ _
    (by decide) (by decide) (by decide) (by rfl) (by rfl)

/-! ## C9 -/

/-- C9: whenever the child list prepared by printChildren contains more
than one node and at least one block-like node, the assembled children
document is a concat whose final part is the forced-break marker, so the
enclosing group can never collapse onto a single line. -/
theorem c9_children_force_break_marker :
    ∀ (fuel : Nat) (opts : Options) (base : Ctx) (children : List Node) (st st1 st2 : GState)
      (prep : List Node) (d : Doc),
      base.insidePre = false →
      prepareChildrenF fuel opts base children Option.none st = Except.ok (prep, st1) →
      prep.length > 1 →
      prep.any isBlockElement = true →
      printChildrenF (fuel + 1) opts base children st = Except.ok (d, st2) →
      endsWithBreakParent d = true := by
  intro fuel opts base children st st1 st2 prep d hpre hprep hlen hblk hrun
  have h0 : ¬(prep.length = 0) := by omega
  simp only [printChildrenF, hpre, Bool.false_eq_true, if_false, hprep,
    Bind.bind, Except.bind, h0, if_false] at hrun
  rcases hloop : printChildrenLoop fuel opts base Option.none false [] prep st1 with er | p
  · rw [hloop] at hrun
    exact absurd hrun (by simp)
  · rw [hloop] at hrun
    have hd : decide (prep.length > 1) = true := decide_eq_true hlen
    simp only [hd, hblk, Bool.and_self, if_true, reduceIte] at hrun
    cases p with
    | mk ds st2' =>
      simp only [Except.ok.injEq, Prod.mk.injEq] at hrun
      rcases hrun with ⟨hdoc, _⟩
      rw [← hdoc]
      simp [endsWithBreakParent, List.getLast?_concat]

/-- Witness for C9: a concrete child list with a block-like element and a
mustache tag ends in the forced-break marker. -/
theorem c9_witness :
    (childBase Ctx.base false ParentTag.otherParent false).insidePre = false ∧
    prepareChildrenF 10 sampleOpts (childBase Ctx.base false ParentTag.otherParent false)
        [Node.mk 0 0 (NodeKind.element ElementTag.element (S "div") true false true
           Option.none [] [Node.mk 0 0 (NodeKind.text (S "x"))]),
         Node.mk 0 0 (NodeKind.mustacheTag (Expr.ident (S "m")))] Option.none cleanState =
      Except.ok ([Node.mk 0 0 (NodeKind.element ElementTag.element (S "div") true false true
           Option.none [] [Node.mk 0 0 (NodeKind.text (S "x"))]),
         Node.mk 0 0 (NodeKind.mustacheTag (Expr.ident (S "m")))], cleanState) ∧
    ([Node.mk 0 0 (NodeKind.element ElementTag.element (S "div") true false true
           Option.none [] [Node.mk 0 0 (NodeKind.text (S "x"))]),
      Node.mk 0 0 (NodeKind.mustacheTag (Expr.ident (S "m")))] : List Node).length > 1 ∧
    ([Node.mk 0 0 (NodeKind.element ElementTag.element (S "div") true false true
           Option.none [] [Node.mk 0 0 (NodeKind.text (S "x"))]),
      Node.mk 0 0 (NodeKind.mustacheTag (Expr.ident (S "m")))].any isBlockElement) = true ∧
    printChildrenF 11 sampleOpts (childBase Ctx.base false ParentTag.otherParent false)
        [Node.mk 0 0 (NodeKind.element ElementTag.element (S "div") true false true
           Option.none [] [Node.mk 0 0 (NodeKind.text (S "x"))]),
         Node.mk 0 0 (NodeKind.mustacheTag (Expr.ident (S "m")))] cleanState =
      Except.ok (Doc.concat [Doc.group (Doc.concat [Doc.text (S "<"), Doc.text (S "div"),
        Doc.indent (Doc.group (Doc.concat [Doc.text (S ""), Doc.text (S "")])),
        Doc.group (Doc.indent (Doc.concat [Doc.softline, Doc.group (Doc.concat
          [Doc.text (S ">"), Doc.concat [Doc.fill [Doc.text (S "x")]],
           Doc.text (S "</div")])])),
        Doc.softline, Doc.text (S ">")]), Doc.softline,
        Doc.concat [Doc.text (S "\x7b"), Doc.text (S "m"), Doc.text (S "\x7d")],
        Doc.breakParent], cleanState) ∧
    endsWithBreakParent (Doc.concat [Doc.group (Doc.concat [Doc.text (S "<"), Doc.text (S "div"),
        Doc.indent (Doc.group (Doc.concat [Doc.text (S ""), Doc.text (S "")])),
        Doc.group (Doc.indent (Doc.concat [Doc.softline, Doc.group (Doc.concat
          [Doc.text (S ">"), Doc.concat [Doc.fill [Doc.text (S "x")]],
           Doc.text (S "</div")])])),
        Doc.softline, Doc.text (S ">")]), Doc.softline,
        Doc.concat [Doc.text (S "\x7b"), Doc.text (S "m"), Doc.text (S "\x7d")],
        Doc.breakParent]) = true := by
  refine ⟨by decide, by rfl, by decide, by decide, by rfl, ?_⟩
  exact c9_children_force_break_marker 10 sampleOpts
    (childBase Ctx.base false ParentTag.otherParent false)
    [Node.mk 0 0 (NodeKind.element ElementTag.element (S "div") true false true
       Option.none [] [Node.mk 0 0 (NodeKind.text (S "x"))]),
     Node.mk 0 0 (NodeKind.mustacheTag (Expr.ident (S "m")))]
    cleanState cleanState cleanState
    [Node.mk 0 0 (NodeKind.element ElementTag.element (S "div") true false true
       Option.none [] [Node.mk 0 0 (NodeKind.text (S "x"))]),
     Node.mk 0 0 (NodeKind.mustacheTag (Expr.ident (S "m")))] _
    (by decide) (by rfl) (by decide) (by decide) (by rfl)

/-- Counterexample to C3 as stated: with svelteSortOrder none, a
root-level invocation whose markup ends in an ignore-next directive
returns with ignoreNext still set (no reset at the end), and the leaked
value is observable: an independent follow-up invocation renders
differently under the leaked state than under the clean state. -/
theorem c3_counterexample_none_leaks :
    (printRoot 30 c3optsNone c3astIgnore cleanState).map stateFlags =
      Except.ok (true, false, false) ∧
    (printRoot 30 c3optsNext c3astNext leakedState).map flatOut =
      Except.ok (S "01234\x7b  x \x7d9xyzabcde") ∧
    (printRoot 30 c3optsNext c3astNext cleanState).map flatOut =
      Except.ok (S "\x7bx\x7d\n") ∧
    (S "01234\x7b  x \x7d9xyzabcde" : List Char) ≠ S "\x7bx\x7d\n" := by
  refine ⟨by rfl, by rfl, by rfl, by decide⟩

/-- C3 amended: the three process-wide values are reset at the end of a
root-level invocation only when the sort order is not none and the
invocation returns normally; there is no reset at the start of an
invocation, and with sort order none no reset happens at all (see the
counterexample). -/
theorem c3_amended_reset_at_end_when_sorted :
    ∀ (fuel : Nat) (opts : Options) (ast : ASTNode) (st : GState),
      opts.sortOrder ≠ SvelteSortOrder.none →
      (printRoot fuel opts ast st).map resultState = (printRoot fuel opts ast st).map constClean := by
  intro fuel opts ast st hsort
  rcases ho : opts.sortOrder with _ | ord
  · exact absurd ho hsort
  · simp only [printRoot, printTopLevelParts, ho]
    rcases hrun : printNode fuel opts (rootCtx (assignCommentsToNodes ast))
        (assignCommentsToNodes ast).html st with er | p
    · simp [hrun, Bind.bind, Except.bind, Except.map]
    · simp only [hrun, Bind.bind, Except.bind]
      split_ifs <;> simp [Except.map, resultState, constClean, cleanState]

/-- Witness for the amended C3: a concrete sorted invocation ends in the
clean state. -/
theorem c3_amended_witness :
    sampleOpts.sortOrder ≠ SvelteSortOrder.none ∧
    (printRoot 30 sampleOpts c3astIgnore cleanState).map resultState =
      (printRoot 30 sampleOpts c3astIgnore cleanState).map constClean := by
  exact ⟨by decide, c3_amended_reset_at_end_when_sorted 30 sampleOpts c3astIgnore cleanState
    (by decide)⟩

/-- Unfolding of the StyleDirective case at positive fuel. -/
theorem printStyleDirCase_succ (fuel : Nat) (opts : Options) (ctx : Ctx) (name : List Char)
    (modifiers : List (List Char)) (value : AttrValue) (st : GState) :
    printStyleDirCase (fuel + 1) opts ctx name modifiers value st =
      (let pref := [str "style:", Doc.text name, modifiersDoc modifiers]
       if isOrCanBeConvertedToShorthand name value ||
           (match value with | AttrValue.flag => true | _ => false) then
         if opts.strictMode then
           Except.ok (Doc.concat (pref ++ [str "=\"\x7b", Doc.text name, str "\x7d\""]), st)
         else if opts.allowShorthand then
           Except.ok (Doc.concat pref, st)
         else
           Except.ok (Doc.concat (pref ++ [str "=\x7b", Doc.text name, str "\x7d"]), st)
       else
         match value with
         | AttrValue.flag => Except.ok (Doc.concat pref, st)
         | AttrValue.nodes vals => do
             let quotes := !isLoneMustacheTag value || opts.strictMode
             let (attrNodeValue, st1) ← printAttributeNodeValueF fuel opts ctx quotes name vals st
             if quotes then
               Except.ok (Doc.concat (pref ++ [str "=", str "\"", attrNodeValue, str "\""]), st1)
             else
               Except.ok (Doc.concat (pref ++ [str "=", attrNodeValue]), st1)) := rfl

/-! ## C7 -/

/-- Counterexample to C7 as stated: a let directive over a bare
identifier equal to its name collapses to the bare form even in strict
mode (the claim predicts the quoted-literal form there), and an event
handler whose expression is a bare identifier equal to its name never
collapses even with shorthand allowed (the claim predicts the
bracket-shorthand form there). -/
theorem c7_counterexample_shorthand_not_config_selected :
    (printNode 3 { sampleOpts with strictMode := true, allowShorthand := false } Ctx.base
        (Node.mk 0 0 (NodeKind.letDirective (S "x") (Option.some (Expr.ident (S "x")))))
        cleanState).map flatOut = Except.ok (S "let:x") ∧
    (S "let:x" : List Char) ≠ S "let:x=\"\x7bx\x7d\"" ∧
    (printNode 3 sampleOpts Ctx.base
        (Node.mk 0 0 (NodeKind.eventHandler (S "click") []
          (Option.some (Expr.ident (S "click"))))) cleanState).map flatOut =
      Except.ok (S "on:click=\x7bclick\x7d") ∧
    (S "on:click=\x7bclick\x7d" : List Char) ≠ S "on:click" := by
  refine ⟨by rfl, by decide, by rfl, by decide⟩

/-- C7 amended: every attribute-like directive renders prefix and name;
modifiers are rendered (bar-joined, declared order) by EventHandler,
StyleDirective and Transition only; the equals-expression tail is
appended whenever an expression is present, quoted per strict mode,
except that Binding and Class collapse to the bare form exactly when the
expression is a bare identifier equal to the name with shorthand allowed
and strict mode off, Let collapses whenever the expression is absent or
a bare identifier equal to the name regardless of the configuration, and
StyleDirective uses the three-way strict or shorthand selection;
EventHandler, Transition, Action and Animation never collapse. -/
theorem c7_amended_directive_rendering :
    (∀ (fuel : Nat) (opts : Options) (ctx : Ctx) (s e : Nat) (name : List Char)
        (mods : List (List Char)) (ex : Option Expr) (o : Option Doc),
        printNode (fuel + 1) opts ctx (Node.mk s e (NodeKind.eventHandler name mods ex))
            { ignoreNext := false, ignoreRange := false, svelteOptionsDoc := o } =
          Except.ok (Doc.concat [str "on:", Doc.text name,
            (if mods.length ≠ 0 then
              Doc.concat [str "|", Doc.concat (List.intersperse (str "|") (mods.map Doc.text))]
            else str ""),
            (match ex with
            | Option.some x => Doc.concat [str "=",
                (if opts.strictMode then str "\"\x7b" else str "\x7b"), printExpr x,
                (if opts.strictMode then str "\x7d\"" else str "\x7d")]
            | Option.none => str "")], { ignoreNext := false, ignoreRange := false, svelteOptionsDoc := o })) ∧
    (∀ (fuel : Nat) (opts : Options) (ctx : Ctx) (s e : Nat) (name : List Char)
        (ex : Expr) (o : Option Doc),
        printNode (fuel + 1) opts ctx (Node.mk s e (NodeKind.binding name ex)) { ignoreNext := false, ignoreRange := false, svelteOptionsDoc := o } =
          Except.ok (Doc.concat [str "bind:", Doc.text name,
            (if exprIsBareName ex name && opts.allowShorthand && !opts.strictMode then str ""
             else Doc.concat [str "=",
              (if opts.strictMode then str "\"\x7b" else str "\x7b"), printExpr ex,
              (if opts.strictMode then str "\x7d\"" else str "\x7d")])], { ignoreNext := false, ignoreRange := false, svelteOptionsDoc := o })) ∧
    (∀ (fuel : Nat) (opts : Options) (ctx : Ctx) (s e : Nat) (name : List Char)
        (ex : Expr) (o : Option Doc),
        printNode (fuel + 1) opts ctx (Node.mk s e (NodeKind.classDirective name ex)) { ignoreNext := false, ignoreRange := false, svelteOptionsDoc := o } =
          Except.ok (Doc.concat [str "class:", Doc.text name,
            (if exprIsBareName ex name && opts.allowShorthand && !opts.strictMode then str ""
             else Doc.concat [str "=",
              (if opts.strictMode then str "\"\x7b" else str "\x7b"), printExpr ex,
              (if opts.strictMode then str "\x7d\"" else str "\x7d")])], { ignoreNext := false, ignoreRange := false, svelteOptionsDoc := o })) ∧
    (∀ (fuel : Nat) (opts : Options) (ctx : Ctx) (s e : Nat) (name : List Char) (o : Option Doc),
        printNode (fuel + 1) opts ctx
            (Node.mk s e (NodeKind.letDirective name Option.none)) { ignoreNext := false, ignoreRange := false, svelteOptionsDoc := o } =
          Except.ok (Doc.concat [str "let:", Doc.text name, str ""], { ignoreNext := false, ignoreRange := false, svelteOptionsDoc := o })) ∧
    (∀ (fuel : Nat) (opts : Options) (ctx : Ctx) (s e : Nat) (name : List Char) (o : Option Doc),
        printNode (fuel + 1) opts ctx
            (Node.mk s e (NodeKind.letDirective name (Option.some (Expr.ident name)))) { ignoreNext := false, ignoreRange := false, svelteOptionsDoc := o } =
          Except.ok (Doc.concat [str "let:", Doc.text name, str ""], { ignoreNext := false, ignoreRange := false, svelteOptionsDoc := o })) ∧
    (∀ (fuel : Nat) (opts : Options) (ctx : Ctx) (s e : Nat) (name : List Char)
        (ex : Expr) (o : Option Doc),
        exprIsBareName ex name = false →
        printNode (fuel + 1) opts ctx
            (Node.mk s e (NodeKind.letDirective name (Option.some ex))) { ignoreNext := false, ignoreRange := false, svelteOptionsDoc := o } =
          Except.ok (Doc.concat [str "let:", Doc.text name, Doc.concat [str "=",
              (if opts.strictMode then str "\"\x7b" else str "\x7b"), printExpr ex,
              (if opts.strictMode then str "\x7d\"" else str "\x7d")]], { ignoreNext := false, ignoreRange := false, svelteOptionsDoc := o })) ∧
    (∀ (fuel : Nat) (opts : Options) (ctx : Ctx) (s e ms me : Nat) (name : List Char)
        (mods : List (List Char)) (o : Option Doc),
        printNode (fuel + 1 + 1) opts ctx
            (Node.mk s e (NodeKind.styleDirective name mods
              (AttrValue.nodes [Node.mk ms me (NodeKind.mustacheTag (Expr.ident name))]))) { ignoreNext := false, ignoreRange := false, svelteOptionsDoc := o } =
          Except.ok
            ((if opts.strictMode then
                Doc.concat [str "style:", Doc.text name, (if mods.length ≠ 0 then
              Doc.concat [str "|", Doc.concat (List.intersperse (str "|") (mods.map Doc.text))]
            else str ""),
                  str "=\"\x7b", Doc.text name, str "\x7d\""]
              else if opts.allowShorthand then
                Doc.concat [str "style:", Doc.text name, (if mods.length ≠ 0 then
              Doc.concat [str "|", Doc.concat (List.intersperse (str "|") (mods.map Doc.text))]
            else str "")]
              else
                Doc.concat [str "style:", Doc.text name, (if mods.length ≠ 0 then
              Doc.concat [str "|", Doc.concat (List.intersperse (str "|") (mods.map Doc.text))]
            else str ""),
                  str "=\x7b", Doc.text name, str "\x7d"]), { ignoreNext := false, ignoreRange := false, svelteOptionsDoc := o })) ∧
    (∀ (fuel : Nat) (opts : Options) (ctx : Ctx) (s e : Nat) (name : List Char)
        (intro outro : Bool) (mods : List (List Char)) (ex : Option Expr) (o : Option Doc),
        printNode (fuel + 1) opts ctx
            (Node.mk s e (NodeKind.transition name intro outro mods ex)) { ignoreNext := false, ignoreRange := false, svelteOptionsDoc := o } =
          Except.ok (Doc.concat [
            Doc.text (if intro && outro then S "transition" else if intro then S "in" else S "out"),
            str ":", Doc.text name, (if mods.length ≠ 0 then
              Doc.concat [str "|", Doc.concat (List.intersperse (str "|") (mods.map Doc.text))]
            else str ""), (match ex with
            | Option.some x => Doc.concat [str "=",
                (if opts.strictMode then str "\"\x7b" else str "\x7b"), printExpr x,
                (if opts.strictMode then str "\x7d\"" else str "\x7d")]
            | Option.none => str "")], { ignoreNext := false, ignoreRange := false, svelteOptionsDoc := o })) ∧
    (∀ (fuel : Nat) (opts : Options) (ctx : Ctx) (s e : Nat) (name : List Char)
        (ex : Option Expr) (o : Option Doc),
        printNode (fuel + 1) opts ctx (Node.mk s e (NodeKind.action name ex)) { ignoreNext := false, ignoreRange := false, svelteOptionsDoc := o } =
          Except.ok (Doc.concat [str "use:", Doc.text name, (match ex with
            | Option.some x => Doc.concat [str "=",
                (if opts.strictMode then str "\"\x7b" else str "\x7b"), printExpr x,
                (if opts.strictMode then str "\x7d\"" else str "\x7d")]
            | Option.none => str "")], { ignoreNext := false, ignoreRange := false, svelteOptionsDoc := o })) ∧
    (∀ (fuel : Nat) (opts : Options) (ctx : Ctx) (s e : Nat) (name : List Char)
        (ex : Option Expr) (o : Option Doc),
        printNode (fuel + 1) opts ctx (Node.mk s e (NodeKind.animation name ex)) { ignoreNext := false, ignoreRange := false, svelteOptionsDoc := o } =
          Except.ok (Doc.concat [str "animate:", Doc.text name, (match ex with
            | Option.some x => Doc.concat [str "=",
                (if opts.strictMode then str "\"\x7b" else str "\x7b"), printExpr x,
                (if opts.strictMode then str "\x7d\"" else str "\x7d")]
            | Option.none => str "")], { ignoreNext := false, ignoreRange := false, svelteOptionsDoc := o })) := by
  refine ⟨?_, ?_, ?_, ?_, ?_, ?_, ?_, ?_, ?_, ?_⟩
  · intro fuel opts ctx s e name mods ex o
    simp [printNode, gate_clean, Node.kind, eventHandlerDoc, modifiersDoc, exprEqPart,
      jsExprDocs, jsQuoteOpen, jsQuoteClose, joinDocs]
  · intro fuel opts ctx s e name ex o
    simp [printNode, gate_clean, Node.kind, bindingDoc, jsExprDocs, jsQuoteOpen, jsQuoteClose]
  · intro fuel opts ctx s e name ex o
    simp [printNode, gate_clean, Node.kind, classDirectiveDoc, jsExprDocs,
      jsQuoteOpen, jsQuoteClose]
  · intro fuel opts ctx s e name o
    simp [printNode, gate_clean, Node.kind, letDirectiveDoc]
  · intro fuel opts ctx s e name o
    simp [printNode, gate_clean, Node.kind, letDirectiveDoc, exprIsBareName]
  · intro fuel opts ctx s e name ex o hbare
    simp [printNode, gate_clean, Node.kind, letDirectiveDoc, hbare, jsExprDocs,
      jsQuoteOpen, jsQuoteClose]
  · intro fuel opts ctx s e ms me name mods o
    simp only [printNode, gate_clean, Node.kind]
    rw [printStyleDirCase_succ]
    simp [isOrCanBeConvertedToShorthand, modifiersDoc, joinDocs]
    split_ifs <;> rfl
  · intro fuel opts ctx s e name intro outro mods ex o
    simp [printNode, gate_clean, Node.kind, transitionDoc, modifiersDoc, exprEqPart,
      jsExprDocs, jsQuoteOpen, jsQuoteClose, joinDocs]
  · intro fuel opts ctx s e name ex o
    simp [printNode, gate_clean, Node.kind, actionDoc, exprEqPart, jsExprDocs,
      jsQuoteOpen, jsQuoteClose]
  · intro fuel opts ctx s e name ex o
    simp [printNode, gate_clean, Node.kind, animationDoc, exprEqPart, jsExprDocs,
      jsQuoteOpen, jsQuoteClose]

/-- Witness for the amended C7: a let directive over a different
identifier renders with its expression. -/
theorem c7_amended_witness :
    exprIsBareName (Expr.ident (S "y")) (S "x") = false ∧
    printNode 3 sampleOpts Ctx.base
        (Node.mk 0 0 (NodeKind.letDirective (S "x") (Option.some (Expr.ident (S "y")))))
        cleanState =
      Except.ok (Doc.concat [str "let:", Doc.text (S "x"),
        Doc.concat [str "=", str "\x7b", printExpr (Expr.ident (S "y")), str "\x7d"]],
        cleanState) := by
  refine ⟨by decide, ?_⟩
  have h := c7_amended_directive_rendering.2.2.2.2.2.1 2 sampleOpts Ctx.base 0 0 (S "x")
    (Expr.ident (S "y")) Option.none (by decide)
  simpa using h

/-- Counterexample to C8 as stated: when a format pragma is inserted, the
reordered sections are concatenated with no hard line between adjacent
sections, so the flat rendering runs the style, module and instance texts
together; the join the claim promises only happens on the no-pragma
path. -/
theorem c8_counterexample_pragma_concat_without_join :
    (printRoot 20 c8optsP c8ast cleanState).map flatOut =
      Except.ok (S "<!-- @format -->\nCSSMODINSThi\n") ∧
    (printRoot 20 c8opts c8ast cleanState).map flatOut =
      Except.ok (S "CSS\nMOD\nINST\nhi\n") ∧
    (S "<!-- @format -->\nCSSMODINSThi\n" : List Char) ≠
      S "<!-- @format -->\nCSS\nMOD\nINST\nhi\n" := by
  refine ⟨by rfl, by rfl, by decide⟩

/-- C8 amended: with a non-none sort order the sections are printed
independently and emitted in the configured order; on the plain path
adjacent sections are joined by a single hard line, while on the
pragma-insertion path the pragma and one hard line are followed by the
sections concatenated directly, with no joiner between them. Shown for
the order styles, scripts, markup and for the default order scripts,
markup, styles, for every choice of section documents. -/
theorem c8_amended_order_join_and_pragma_concat :
    (∀ m i c : Doc,
        printRoot 20 c8opts (c8astOf m i c) cleanState =
          Except.ok (Doc.group (Doc.concat [Doc.concat
            [c, Doc.hardline, m, Doc.hardline, i, Doc.hardline, c8markupDoc]]),
            cleanState)) ∧
    (∀ m i c : Doc,
        printRoot 20 c8optsDef (c8astOf m i c) cleanState =
          Except.ok (Doc.group (Doc.concat [Doc.concat
            [m, Doc.hardline, i, Doc.hardline, c8markupDoc, Doc.hardline, c]]),
            cleanState)) ∧
    (∀ m i c : Doc,
        printRoot 20 c8optsP (c8astOf m i c) cleanState =
          Except.ok (Doc.concat [str "<!-- @format -->", Doc.hardline,
            Doc.group (Doc.concat [c, m, i, c8markupDoc])],
            cleanState)) := by
  have hassign : ∀ m i c : Doc,
      assignCommentsToNodes (c8astOf m i c) = c8astOf m i c := fun m i c => rfl
  have hrun1 : ∀ m i c : Doc,
      printNode 20 c8opts (rootCtx (c8astOf m i c)) (c8astOf m i c).html cleanState =
        Except.ok (c8markupDoc, cleanState) := fun m i c => rfl
  have hrun2 : ∀ m i c : Doc,
      printNode 20 c8optsDef (rootCtx (c8astOf m i c)) (c8astOf m i c).html cleanState =
        Except.ok (c8markupDoc, cleanState) := fun m i c => rfl
  have hrun3 : ∀ m i c : Doc,
      printNode 20 c8optsP (rootCtx (c8astOf m i c)) (c8astOf m i c).html cleanState =
        Except.ok (c8markupDoc, cleanState) := fun m i c => rfl
  have hso1 : c8opts.sortOrder = SvelteSortOrder.order
      [SortOrderPart.styles, SortOrderPart.scripts, SortOrderPart.markup] := rfl
  have hso2 : c8optsDef.sortOrder = SvelteSortOrder.order
      [SortOrderPart.scripts, SortOrderPart.markup, SortOrderPart.styles] := rfl
  have hso3 : c8optsP.sortOrder = SvelteSortOrder.order
      [SortOrderPart.styles, SortOrderPart.scripts, SortOrderPart.markup] := rfl
  refine ⟨fun m i c => ?_, fun m i c => ?_, fun m i c => ?_⟩
  · simp only [printRoot, hassign, printTopLevelParts, hso1, hrun1, Bind.bind, Except.bind]
    rfl
  · simp only [printRoot, hassign, printTopLevelParts, hso2, hrun2, Bind.bind, Except.bind]
    rfl
  · simp only [printRoot, hassign, printTopLevelParts, hso3, hrun3, Bind.bind, Except.bind]
    rfl

/-! ## C2 helper lemmas: trimming and newline counting -/

/-- splitWS never returns the empty list of parts. -/
theorem splitWS_ne_nil : ∀ l : List Char, splitWS l ≠ [] := by
  intro l
  match l with
  | [] => simp [splitWS]
  | c :: rest =>
      simp only [splitWS]
      split
      · match rest with
        | [] => simp
        | d :: rest2 =>
            simp only [List.head?]
            split <;> simp_all [splitWS_ne_nil (d :: rest2)]
      · cases h : splitWS rest <;> simp

/-- The head of a dropWhile result fails the predicate. -/
theorem dropWhile_head_false (p : Char → Bool) :
    ∀ (l : List Char) (x : Char) (xs : List Char), l.dropWhile p = x :: xs → p x = false := by
  intro l
  induction l with
  | nil => intro x xs h; simp [List.dropWhile] at h
  | cons c t ih =>
      intro x xs h
      rw [List.dropWhile_cons] at h
      by_cases hc : p c = true
      · exact ih x xs (by simpa [hc] using h)
      · simp only [hc, if_false] at h
        injection h with h1 h2
        rw [← h1]
        simpa using hc

/-- takeWhile over an append stops inside the left part when the left
part contains a failing element. -/
theorem takeWhile_append_left (p : Char → Bool) :
    ∀ (a b : List Char), (∃ c ∈ a, p c = false) → (a ++ b).takeWhile p = a.takeWhile p := by
  intro a
  induction a with
  | nil => intro b h; rcases h with ⟨c, hc, _⟩; simp at hc
  | cons x a ih =>
      intro b h
      by_cases hx : p x = true
      · rcases h with ⟨c, hc, hcf⟩
        rcases List.mem_cons.mp hc with h1 | h2
        · subst h1
          rw [hx] at hcf
          simp at hcf
        · simp only [List.cons_append, List.takeWhile_cons, hx, if_true]
          rw [ih b ⟨c, h2, hcf⟩]
      · simp only [Bool.not_eq_true] at hx
        simp [List.takeWhile_cons, hx]

/-- A list trims to nothing exactly when all its characters are JS
whitespace. -/
theorem jsTrim_nil_iff (l : List Char) : jsTrim l = [] ↔ ∀ c ∈ l, isWSjs c = true := by
  unfold jsTrim
  rw [List.reverse_eq_nil_iff, List.dropWhile_eq_nil_iff]
  constructor
  · intro h c hc
    have hl : l.takeWhile isWSjs ++ l.dropWhile isWSjs = l := List.takeWhile_append_dropWhile isWSjs l
    rw [← hl] at hc
    rcases List.mem_append.mp hc with h1 | h2
    · exact List.mem_takeWhile_imp h1
    · exact h c (by simpa using h2)
  · intro h c hc
    have hs : (l.dropWhile isWSjs).Sublist l := List.dropWhile_sublist _
    exact h c (hs.mem (by simpa using hc))

/-- For all-whitespace text, the backtracking whitespace-then-newline
search succeeds exactly when a newline occurs. -/
theorem wsThenNewline_mem :
    ∀ l : List Char, (∀ c ∈ l, isWSjs c = true) → (wsThenNewline l = true ↔ ('\n') ∈ l) := by
  intro l
  induction l with
  | nil => intro _; simp [wsThenNewline]
  | cons c r ih =>
      intro h
      have hc := h c (List.mem_cons_self c r)
      by_cases hnl : c = '\n'
      · simp [wsThenNewline, hnl]
      · have : ¬('\n' = c) := fun he => hnl he.symm
        simp [wsThenNewline, hnl, hc, ih (fun x hx => h x (List.mem_cons_of_mem c hx)),
          List.mem_cons, this]

/-- For all-whitespace text, the two-newline regular expression succeeds
exactly when the newline count is at least two. -/
theorem hasTwoNewlines_count :
    ∀ l : List Char, (∀ c ∈ l, isWSjs c = true) →
      (hasTwoNewlines l = true ↔ 2 ≤ l.count '\n') := by
  intro l
  induction l with
  | nil => intro _; simp [hasTwoNewlines]
  | cons c r ih =>
      intro h
      have hr : ∀ x ∈ r, isWSjs x = true := fun x hx => h x (List.mem_cons_of_mem c hx)
      have ihr := ih hr
      have hws := wsThenNewline_mem r hr
      by_cases hnl : c = '\n'
      · have hcount : (c :: r).count '\n' = r.count '\n' + 1 := by
          simp [List.count_cons, hnl]
        rw [hcount]
        simp only [hasTwoNewlines, hnl, decide_True, Bool.true_and, Bool.or_eq_true]
        constructor
        · intro hh
          rcases hh with hh | hh
          · have : ('\n') ∈ r := hws.mp hh
            have : 1 ≤ r.count '\n' := List.count_pos_iff.mpr this
            omega
          · have := ihr.mp hh; omega
        · intro hh
          left
          exact hws.mpr (List.count_pos_iff.mp (by omega))
      · have hne2 : ¬(('\n') = c) := fun he => hnl he.symm
        have hcount : (c :: r).count '\n' = r.count '\n' := by
          simp [List.count_cons, hne2]
        rw [hcount]
        simp only [hasTwoNewlines, Bool.or_eq_true]
        constructor
        · intro hh
          rcases hh with hh | hh
          · exact absurd hh (by simp [hnl])
          · exact ihr.mp hh
        · intro hh
          right
          exact ihr.mpr hh

/-! ## splitWS structural lemmas -/

/-- One-layer unfolding of splitWS on a cons cell. -/
theorem splitWS_cons_eq (c : Char) (rest : List Char) :
    splitWS (c :: rest) =
      (if isSplitWS c then
        match rest.head? with
        | some d => if isSplitWS d then splitWS rest else [] :: splitWS rest
        | none => [] :: splitWS rest
      else
        match splitWS rest with
        | [] => [[c]]
        | w :: ws => (c :: w) :: ws) := rfl

/-- A single non-separator character is one word. -/
theorem splitWS_single_nonsep (x : Char) (hx : isSplitWS x = false) :
    splitWS [x] = [[x]] := by
  rw [splitWS_cons_eq]
  simp [hx, splitWS]

/-- A nonempty all-separator text splits into two empty parts. -/
theorem splitWS_all_sep :
    ∀ t : List Char, t ≠ [] → (∀ c ∈ t, isSplitWS c = true) → splitWS t = [[], []] := by
  intro t
  induction t with
  | nil => intro h _; exact absurd rfl h
  | cons c t ih =>
      intro _ hall
      have hc := hall c (List.mem_cons_self c t)
      cases t with
      | nil => simp [splitWS, hc]
      | cons d t2 =>
          have hd := hall d (by simp)
          have ht := ih (by simp) (fun x hx => hall x (List.mem_cons_of_mem c hx))
          rw [splitWS_cons_eq]
          simp [List.head?, hc, hd, ht]

/-- A leading separator run contributes exactly one empty part. -/
theorem splitWS_sep_prefix :
    ∀ (u : List Char) (d : Char) (v : List Char),
      u ≠ [] → (∀ c ∈ u, isSplitWS c = true) → isSplitWS d = false →
      splitWS (u ++ d :: v) = [] :: splitWS (d :: v) := by
  intro u
  induction u with
  | nil => intro d v h _ _; exact absurd rfl h
  | cons c u ih =>
      intro d v _ hall hd
      have hc : isSplitWS c = true := hall c (List.mem_cons_self c u)
      cases u with
      | nil =>
          simp only [List.nil_append, List.cons_append]
          rw [splitWS_cons_eq]
          simp [List.head?, hc, hd]
      | cons c2 u2 =>
          have hc2 : isSplitWS c2 = true := hall c2 (by simp)
          have ht := ih d v (by simp) (fun x hx => hall x (List.mem_cons_of_mem c hx)) hd
          simp only [List.cons_append] at ht ⊢
          rw [splitWS_cons_eq]
          simp [List.head?, hc, hc2, ht]

/-- A text starting with a non-separator starts with a nonempty word
part. -/
theorem splitWS_word_head :
    ∀ (d : Char) (v : List Char), isSplitWS d = false →
      ∃ w ws, splitWS (d :: v) = (d :: w) :: ws := by
  intro d v hd
  rcases hsv : splitWS v with _ | ⟨w, ws⟩
  · exact absurd hsv (splitWS_ne_nil v)
  · refine ⟨w, ws, ?_⟩
    rw [splitWS_cons_eq]
    simp [hd, hsv]

/-- A trailing separator run contributes exactly one final empty part. -/
theorem splitWS_sep_suffix :
    ∀ (m2 : List Char) (x : Char) (t : List Char),
      isSplitWS x = false → t ≠ [] → (∀ c ∈ t, isSplitWS c = true) →
      splitWS ((m2 ++ [x]) ++ t) = splitWS (m2 ++ [x]) ++ [[]] := by
  intro m2
  induction m2 with
  | nil =>
      intro x t hx ht hall
      have hts := splitWS_all_sep t ht hall
      simp only [List.nil_append, List.singleton_append]
      conv_lhs => rw [splitWS_cons_eq]
      rw [splitWS_single_nonsep x hx]
      simp [hx, hts]
  | cons c m2 ih =>
      intro x t hx ht hall
      have iht := ih x t hx ht hall
      simp only [List.cons_append, List.append_assoc, List.singleton_append,
        List.nil_append] at iht ⊢
      by_cases hc : isSplitWS c = true
      · cases m2 with
        | nil =>
            simp only [List.nil_append] at iht ⊢
            conv_lhs => rw [splitWS_cons_eq]
            conv_rhs => rw [splitWS_cons_eq]
            simp [List.head?, hc, hx, iht, splitWS_single_nonsep x hx]
        | cons e m2x =>
            simp only [List.cons_append] at iht ⊢
            conv_lhs => rw [splitWS_cons_eq]
            conv_rhs => rw [splitWS_cons_eq]
            by_cases he : isSplitWS e = true
            · simp [List.head?, hc, he, iht]
            · simp [List.head?, hc, he, iht]
      · rcases hsp : splitWS (m2 ++ [x]) with _ | ⟨w, ws⟩
        · exact absurd hsp (splitWS_ne_nil _)
        · rw [hsp] at iht
          conv_lhs => rw [splitWS_cons_eq]
          conv_rhs => rw [splitWS_cons_eq]
          simp [hc, iht, hsp]

/-- A text ending with a non-separator ends with a nonempty word part. -/
theorem splitWS_word_last :
    ∀ (m2 : List Char) (x : Char), isSplitWS x = false →
      ∃ ws w, splitWS (m2 ++ [x]) = ws ++ [w ++ [x]] := by
  intro m2
  induction m2 with
  | nil =>
      intro x hx
      exact ⟨[], [], by simp [splitWS_single_nonsep x hx]⟩
  | cons c m2 ih =>
      intro x hx
      obtain ⟨ws, w, hws⟩ := ih x hx
      by_cases hc : isSplitWS c = true
      · cases m2 with
        | nil =>
            refine ⟨[[]], [], ?_⟩
            simp only [List.cons_append, List.nil_append]
            rw [splitWS_cons_eq]
            simp [List.head?, hc, hx, splitWS_single_nonsep x hx]
        | cons e m2x =>
            by_cases he : isSplitWS e = true
            · refine ⟨ws, w, ?_⟩
              simp only [List.cons_append] at hws ⊢
              rw [splitWS_cons_eq]
              simp [List.head?, hc, he, hws]
            · refine ⟨[] :: ws, w, ?_⟩
              simp only [List.cons_append] at hws ⊢
              rw [splitWS_cons_eq]
              simp [List.head?, hc, he, hws]
      · rcases ws with _ | ⟨w0, wsx⟩
        · refine ⟨[], c :: w, ?_⟩
          simp only [List.nil_append] at hws
          simp only [List.cons_append]
          rw [splitWS_cons_eq]
          simp [hc, hws]
        · refine ⟨(c :: w0) :: wsx, w, ?_⟩
          simp only [List.cons_append] at hws ⊢
          rw [splitWS_cons_eq]
          simp [hc, hws]

/-- A one-part split means the text has no separator at all. -/
theorem splitWS_singleton_nonsep :
    ∀ (l : List Char) (w : List Char), splitWS l = [w] → ∀ c ∈ l, isSplitWS c = false := by
  intro l
  induction l with
  | nil => intro w _ c hc; simp at hc
  | cons a t ih =>
      intro w h c hc
      by_cases ha : isSplitWS a = true
      · cases t with
        | nil =>
            rw [show splitWS [a] = [[], []] from by
              rw [splitWS_cons_eq]; simp [ha, splitWS]] at h
            simp at h
        | cons e t2 =>
            rw [splitWS_cons_eq] at h
            by_cases he : isSplitWS e = true
            · simp only [List.head?, ha, he, if_true] at h
              have := ih w (by simpa using h) e (by simp)
              rw [he] at this
              simp at this
            · simp only [List.head?, ha, he, if_true] at h
              rcases hsp : splitWS (e :: t2) with _ | ⟨y, ys⟩
              · exact absurd hsp (splitWS_ne_nil _)
              · rw [hsp] at h
                simp at h
      · rw [splitWS_cons_eq] at h
        rcases hsp : splitWS t with _ | ⟨w0, ws0⟩
        · exact absurd hsp (splitWS_ne_nil _)
        · rw [hsp] at h
          simp only [ha, if_false] at h
          have hinj := List.cons.inj (by simpa using h)
          have hws0 : ws0 = [] := hinj.2
          rcases List.mem_cons.mp hc with rfl | hct
          · simpa using ha
          · exact ih w0 (by rw [hsp, hws0]) c hct

theorem keepDoc_line : keepDoc Doc.line = true := rfl

theorem keepDoc_text_nil : keepDoc (Doc.text []) = false := rfl

theorem keepDoc_text_cons (d : Char) (w : List Char) :
    keepDoc (Doc.text (d :: w)) = true := rfl

/-- splitTextToDocs in terms of wordDocs and the four edge
adjustments. -/
theorem splitTextToDocs_via_wordDocs (text : List Char) :
    splitTextToDocs text =
      (let docs1 := wordDocs text
       let docs2 := if startsWithLinebreak text then docs1.set 0 Doc.hardline else docs1
       let docs3 := if startsWithLinebreak text 2 then Doc.hardline :: docs2 else docs2
       let docs4 :=
         if endsWithLinebreak text then docs3.set (docs3.length - 1) Doc.hardline else docs3
       if endsWithLinebreak text 2 then docs4 ++ [Doc.hardline] else docs4) := rfl

/-- Interspersing into a two-element tail. -/
theorem intersperse_append_pair (s a b : Doc) :
    ∀ l : List Doc, List.intersperse s (l ++ [a, b]) = List.intersperse s (l ++ [a]) ++ [s, b] := by
  intro l
  induction l with
  | nil => simp [List.intersperse]
  | cons x l ih =>
      cases l with
      | nil => simp [List.intersperse]
      | cons y l2 =>
          simp only [List.cons_append, List.intersperse, List.append_eq] at ih ⊢
          rw [ih]

/-- Reversal commutes with interspersing. -/
theorem reverse_intersperse (s : Doc) :
    ∀ l : List Doc, (List.intersperse s l).reverse = List.intersperse s l.reverse := by
  intro l
  induction l with
  | nil => simp
  | cons a l ih =>
      cases l with
      | nil => simp
      | cons b l2 =>
          rw [show List.intersperse s (a :: b :: l2) = a :: s :: List.intersperse s (b :: l2)
            from rfl]
          rw [List.reverse_cons, List.reverse_cons, ih]
          rw [show (b :: l2).reverse = l2.reverse ++ [b] from by simp]
          rw [show (a :: b :: l2).reverse = l2.reverse ++ [b, a] from by simp]
          rw [intersperse_append_pair]
          simp

/-- Filtering the interspersed word list: an empty leading word is
dropped, the separator and the following nonempty word stay. -/
theorem filter_intersperse_head (w : List Char) (hw : w ≠ []) (rest : List Doc) :
    (List.intersperse Doc.line (Doc.text [] :: Doc.text w :: rest)).filter keepDoc =
      Doc.line :: Doc.text w ::
        (match rest with
         | [] => []
         | x :: r => (Doc.line :: List.intersperse Doc.line (x :: r)).filter keepDoc) := by
  rcases w with _ | ⟨d, w2⟩
  · exact absurd rfl hw
  · cases rest with
    | nil =>
        simp [List.intersperse, List.filter, keepDoc_line, keepDoc_text_nil, keepDoc_text_cons]
    | cons x r =>
        rw [show List.intersperse Doc.line (Doc.text [] :: Doc.text (d :: w2) :: x :: r) =
          Doc.text [] :: Doc.line :: Doc.text (d :: w2) :: Doc.line ::
            List.intersperse Doc.line (x :: r) from rfl]
        simp only [List.filter, keepDoc_line, keepDoc_text_nil, keepDoc_text_cons]

/-- Head shape of wordDocs when the text starts with a separator run
followed by a word. -/
theorem wordDocs_head (raw : List Char) (w : List Char) (ws : List (List Char))
    (hsp : splitWS raw = [] :: w :: ws) (hw : w ≠ []) :
    ∃ tl, wordDocs raw = Doc.line :: Doc.text w :: tl ∧
      (ws = [] → tl = []) ∧ (ws ≠ [] → tl ≠ []) := by
  unfold wordDocs joinDocs
  rw [hsp]
  simp only [List.map]
  rw [filter_intersperse_head w hw (ws.map Doc.text)]
  cases ws with
  | nil => exact ⟨[], by simp, fun _ => rfl, fun h => absurd rfl h⟩
  | cons y ys =>
      simp only [List.map]
      refine ⟨(Doc.line :: List.intersperse Doc.line (Doc.text y :: ys.map Doc.text)).filter
        keepDoc, rfl, fun h => by simp at h, fun _ => ?_⟩
      simp [List.filter_cons, keepDoc_line]

/-- wordDocs of a text equals, reversed, the filtered interspersion of
the reversed part list. -/
theorem wordDocs_rev (raw : List Char) :
    (wordDocs raw).reverse =
      (List.intersperse Doc.line (((splitWS raw).reverse).map Doc.text)).filter keepDoc := by
  unfold wordDocs joinDocs
  rw [← List.filter_reverse, reverse_intersperse, ← List.map_reverse]

/-- Tail shape of wordDocs when the text ends with a word followed by a
separator run. -/
theorem wordDocs_last (raw : List Char) (w : List Char) (ws : List (List Char))
    (hsp : splitWS raw = (ws ++ [w]) ++ [[]]) (hw : w ≠ []) :
    ∃ init, wordDocs raw = init ++ [Doc.text w, Doc.line] ∧
      (ws = [] → init = []) ∧ (ws ≠ [] → init ≠ []) := by
  have hrev : (splitWS raw).reverse = [] :: w :: ws.reverse := by rw [hsp]; simp
  have h := wordDocs_rev raw
  rw [hrev] at h
  simp only [List.map] at h
  rw [filter_intersperse_head w hw (ws.reverse.map Doc.text)] at h
  have h2 : wordDocs raw =
      (Doc.line :: Doc.text w ::
        (match ws.reverse.map Doc.text with
         | [] => []
         | x :: r => (Doc.line :: List.intersperse Doc.line (x :: r)).filter keepDoc)).reverse := by
    rw [← h, List.reverse_reverse]
  cases hwsr : ws.reverse with
  | nil =>
      have hws : ws = [] := by simpa using congrArg List.reverse hwsr
      rw [hwsr] at h2
      simp only [List.map] at h2
      refine ⟨[], ?_, fun _ => rfl, fun hne => absurd hws hne⟩
      simpa using h2
  | cons y ys =>
      rw [hwsr] at h2
      simp only [List.map, List.filter, keepDoc_line] at h2
      refine ⟨(List.filter keepDoc
          (List.intersperse Doc.line (Doc.text y :: List.map Doc.text ys))).reverse ++
          [Doc.line],
        by rw [h2]; simp, fun hws => ?_, fun _ => ?_⟩
      · rw [hws] at hwsr; simp at hwsr
      · simp

/-- Setting the second-to-last slot of a list ending in two fixed
elements. -/
theorem set_append_last (l : List Doc) (a b c : Doc) :
    (l ++ [a, b]).set (l.length + 1) c = l ++ [a, c] := by
  induction l with
  | nil => rfl
  | cons x l ih =>
      simp only [List.cons_append, List.length_cons, List.set_cons_succ]
      rw [ih]

/-- Setting the last element below a fixed prefix. -/
theorem set_last_append (pre l : List Doc) (hl : l ≠ []) (v : Doc) :
    (pre ++ l).set ((pre ++ l).length - 1) v = pre ++ l.set (l.length - 1) v := by
  induction pre with
  | nil => simp
  | cons p pre ih =>
      have hpos : 0 < (pre ++ l).length := by
        rcases List.exists_cons_of_ne_nil hl with ⟨x, xs, hx⟩
        subst hx
        simp
      have hidx : (p :: (pre ++ l)).length - 1 = ((pre ++ l).length - 1) + 1 := by
        simp only [List.length_cons]
        omega
      simp only [List.cons_append]
      rw [hidx, List.set_cons_succ, ih]

/-- A text that is a word run followed by separators, with at least two
newlines after the word, is impossible: a word has no newline. -/
theorem no_trailing_newline_of_singleton (raw : List Char) (d : Char) (v2 : List Char)
    (hraw : raw.takeWhile isWSjs ++ raw.dropWhile isWSjs = raw)
    (hdv : raw.dropWhile isWSjs = d :: v2) (hd : isWSjs d = false)
    (hnons : ∀ c ∈ d :: v2, isSplitWS c = false) :
    trailingNewlines raw = 0 := by
  unfold trailingNewlines
  have hrev : raw.reverse = (d :: v2).reverse ++ (raw.takeWhile isWSjs).reverse := by
    conv_lhs => rw [← hraw, hdv]
    simp [List.reverse_append]
  rw [hrev, takeWhile_append_left isWSjs _ _ ⟨d, by simp, hd⟩]
  apply List.count_eq_zero.mpr
  intro hmem
  have hsub : ((d :: v2).reverse.takeWhile isWSjs).Sublist ((d :: v2).reverse) :=
    List.takeWhile_sublist _
  have hmem2 : ('\n') ∈ (d :: v2) := List.mem_reverse.mp (hsub.mem hmem)
  have := hnons '\n' hmem2
  simp [isSplitWS] at this

/-- Leading-edge shape: a non-empty text whose leading whitespace run
consists of split characters and holds at least two newlines renders with
exactly a doubled hard line followed by a nonempty word, however many
newlines the run holds. -/
theorem splitTextToDocs_leading_double (raw : List Char)
    (hne : jsTrim raw ≠ [])
    (hws : ∀ c ∈ raw.takeWhile isWSjs, isSplitWS c = true)
    (h2 : 2 ≤ leadingNewlines raw) :
    ∃ w rest, splitTextToDocs raw = Doc.hardline :: Doc.hardline :: Doc.text w :: rest ∧
      w ≠ [] := by
  have hraw : raw.takeWhile isWSjs ++ raw.dropWhile isWSjs = raw :=
    List.takeWhile_append_dropWhile isWSjs raw
  have hlead : 2 ≤ (raw.takeWhile isWSjs).count '\n' := h2
  have hu_ne : raw.takeWhile isWSjs ≠ [] := by
    intro h
    rw [h] at hlead
    simp at hlead
  have hv_ne : raw.dropWhile isWSjs ≠ [] := by
    intro h
    apply hne
    apply (jsTrim_nil_iff raw).mpr
    intro c hc
    rw [← hraw] at hc
    rcases List.mem_append.mp hc with h1 | h2x
    · exact List.mem_takeWhile_imp h1
    · rw [h] at h2x
      simp at h2x
  obtain ⟨d, v2, hdv⟩ := List.exists_cons_of_ne_nil hv_ne
  have hd : isWSjs d = false := dropWhile_head_false isWSjs raw d v2 hdv
  have hdsplit : isSplitWS d = false := by
    cases hds : isSplitWS d
    · rfl
    · rw [isSplitWS_isWSjs hds] at hd
      simp at hd
  have hsp : splitWS raw = [] :: splitWS (d :: v2) := by
    conv_lhs => rw [← hraw, hdv]
    exact splitWS_sep_prefix _ d v2 hu_ne hws hdsplit
  obtain ⟨w0, ws0, hword⟩ := splitWS_word_head d v2 hdsplit
  rw [hword] at hsp
  obtain ⟨tl, hdocs1, htl_nil, htl_ne⟩ := wordDocs_head raw (d :: w0) ws0 hsp (by simp)
  have hs1 : startsWithLinebreak raw = true := by
    simp only [startsWithLinebreak, decide_eq_true_eq]
    omega
  have hs2 : startsWithLinebreak raw 2 = true := by
    simp only [startsWithLinebreak, decide_eq_true_eq]
    omega
  rw [splitTextToDocs_via_wordDocs]
  simp only [hdocs1, hs1, hs2, if_true, List.set_cons_zero]
  by_cases he : endsWithLinebreak raw = true
  · have htl : tl ≠ [] := by
      apply htl_ne
      intro hws0
      rw [hws0] at hword
      have hnons := splitWS_singleton_nonsep (d :: v2) (d :: w0) hword
      have h0 := no_trailing_newline_of_singleton raw d v2 hraw hdv hd hnons
      simp only [endsWithLinebreak, decide_eq_true_eq] at he
      omega
    obtain ⟨x, tl2, hxtl⟩ := List.exists_cons_of_ne_nil htl
    subst hxtl
    rw [he]
    simp only [if_true]
    have hform : (Doc.hardline :: Doc.hardline :: Doc.text (d :: w0) :: x :: tl2) =
        [Doc.hardline, Doc.hardline, Doc.text (d :: w0)] ++ (x :: tl2) := by simp
    rw [hform, set_last_append [Doc.hardline, Doc.hardline, Doc.text (d :: w0)] (x :: tl2)
      (by simp) Doc.hardline]
    by_cases he2 : endsWithLinebreak raw 2 = true
    · rw [he2]
      simp only [if_true]
      exact ⟨d :: w0, (x :: tl2).set ((x :: tl2).length - 1) Doc.hardline ++ [Doc.hardline],
        by simp, by simp⟩
    · rw [show endsWithLinebreak raw 2 = false from by
        cases hb : endsWithLinebreak raw 2
        · rfl
        · exact absurd hb he2]
      simp only [Bool.false_eq_true, if_false]
      exact ⟨d :: w0, (x :: tl2).set ((x :: tl2).length - 1) Doc.hardline, by simp, by simp⟩
  · have he' : endsWithLinebreak raw = false := by
      cases hb : endsWithLinebreak raw
      · rfl
      · exact absurd hb he
    have he2 : endsWithLinebreak raw 2 = false := by
      simp only [endsWithLinebreak, decide_eq_false_iff_not] at he' ⊢
      omega
    rw [he', he2]
    simp only [Bool.false_eq_true, if_false]
    exact ⟨d :: w0, tl, rfl, by simp⟩

/-- Trailing-edge shape: a non-empty text whose trailing whitespace run
consists of split characters and holds at least two newlines renders with
a nonempty final word followed by exactly a doubled hard line, however
many newlines the run holds. -/
theorem splitTextToDocs_trailing_double (raw : List Char)
    (hne : jsTrim raw ≠ [])
    (hws : ∀ c ∈ raw.reverse.takeWhile isWSjs, isSplitWS c = true)
    (h2 : 2 ≤ trailingNewlines raw) :
    ∃ init w, splitTextToDocs raw = init ++ [Doc.text w, Doc.hardline, Doc.hardline] ∧
      w ≠ [] := by
  have hrawrev : raw.reverse.takeWhile isWSjs ++ raw.reverse.dropWhile isWSjs = raw.reverse :=
    List.takeWhile_append_dropWhile isWSjs raw.reverse
  have hraw : (raw.reverse.dropWhile isWSjs).reverse ++ (raw.reverse.takeWhile isWSjs).reverse
      = raw := by
    have h1 := congrArg List.reverse hrawrev
    rw [List.reverse_append, List.reverse_reverse] at h1
    exact h1
  have htail : 2 ≤ (raw.reverse.takeWhile isWSjs).count '\n' := h2
  have ht_ne : raw.reverse.takeWhile isWSjs ≠ [] := by
    intro h
    rw [h] at htail
    simp at htail
  have ht_ne2 : (raw.reverse.takeWhile isWSjs).reverse ≠ [] := by
    simpa using ht_ne
  have hm_ne : raw.reverse.dropWhile isWSjs ≠ [] := by
    intro h
    apply hne
    apply (jsTrim_nil_iff raw).mpr
    intro c hc
    have hc2 : c ∈ raw.reverse := List.mem_reverse.mpr hc
    rw [← hrawrev] at hc2
    rcases List.mem_append.mp hc2 with h1 | h2x
    · exact List.mem_takeWhile_imp h1
    · rw [h] at h2x
      simp at h2x
  obtain ⟨x, m2r, hxm⟩ := List.exists_cons_of_ne_nil hm_ne
  have hx : isWSjs x = false := dropWhile_head_false isWSjs raw.reverse x m2r hxm
  have hxsplit : isSplitWS x = false := by
    cases hds : isSplitWS x
    · rfl
    · rw [isSplitWS_isWSjs hds] at hx
      simp at hx
  have hall_t : ∀ c ∈ (raw.reverse.takeWhile isWSjs).reverse, isSplitWS c = true := by
    intro c hc
    exact hws c (List.mem_reverse.mp hc)
  have hsplit : splitWS raw =
      splitWS (m2r.reverse ++ [x]) ++ [[]] := by
    conv_lhs => rw [← hraw, hxm]
    rw [show (x :: m2r).reverse = m2r.reverse ++ [x] from by simp]
    exact splitWS_sep_suffix m2r.reverse x _ hxsplit ht_ne2 hall_t
  obtain ⟨ws0, w0, hword⟩ := splitWS_word_last m2r.reverse x hxsplit
  rw [hword] at hsplit
  obtain ⟨init0, hdocs1, hinit_nil, hinit_ne⟩ :=
    wordDocs_last raw (w0 ++ [x]) ws0 hsplit (by simp)
  have he1 : endsWithLinebreak raw = true := by
    simp only [endsWithLinebreak, decide_eq_true_eq]
    omega
  have he2 : endsWithLinebreak raw 2 = true := by
    simp only [endsWithLinebreak, decide_eq_true_eq]
    omega
  rw [splitTextToDocs_via_wordDocs]
  simp only [hdocs1, he1, he2, if_true]
  by_cases hs : startsWithLinebreak raw = true
  · have hinit : init0 ≠ [] := by
      apply hinit_ne
      intro hws0
      rw [hws0, List.nil_append] at hword
      have hnons := splitWS_singleton_nonsep (m2r.reverse ++ [x]) (w0 ++ [x]) hword
      simp only [startsWithLinebreak, decide_eq_true_eq] at hs
      have hlead0 : leadingNewlines raw = 0 := by
        unfold leadingNewlines
        conv_lhs => rw [← hraw, hxm]
        rw [show (x :: m2r).reverse = m2r.reverse ++ [x] from by simp]
        rw [takeWhile_append_left isWSjs (m2r.reverse ++ [x])
          (raw.reverse.takeWhile isWSjs).reverse ⟨x, by simp, hx⟩]
        apply List.count_eq_zero.mpr
        intro hmem
        have hsub : ((m2r.reverse ++ [x]).takeWhile isWSjs).Sublist (m2r.reverse ++ [x]) :=
          List.takeWhile_sublist _
        have := hnons '\n' (hsub.mem hmem)
        simp [isSplitWS] at this
      omega
    obtain ⟨i0h, i0t, hi0⟩ := List.exists_cons_of_ne_nil hinit
    subst hi0
    rw [hs]
    simp only [if_true, List.cons_append, List.set_cons_zero]
    by_cases hs2 : startsWithLinebreak raw 2 = true
    · rw [hs2]
      simp only [if_true]
      rw [show Doc.hardline :: Doc.hardline :: (i0t ++ [Doc.text (w0 ++ [x]), Doc.line]) =
        (Doc.hardline :: Doc.hardline :: i0t) ++ [Doc.text (w0 ++ [x]), Doc.line] from by simp]
      rw [set_last_append (Doc.hardline :: Doc.hardline :: i0t)
        [Doc.text (w0 ++ [x]), Doc.line] (by simp) Doc.hardline]
      exact ⟨Doc.hardline :: Doc.hardline :: i0t, w0 ++ [x], by simp, by simp⟩
    · rw [show startsWithLinebreak raw 2 = false from by
        cases hb : startsWithLinebreak raw 2
        · rfl
        · exact absurd hb hs2]
      simp only [Bool.false_eq_true, if_false]
      rw [show Doc.hardline :: (i0t ++ [Doc.text (w0 ++ [x]), Doc.line]) =
        (Doc.hardline :: i0t) ++ [Doc.text (w0 ++ [x]), Doc.line] from by simp]
      rw [set_last_append (Doc.hardline :: i0t)
        [Doc.text (w0 ++ [x]), Doc.line] (by simp) Doc.hardline]
      exact ⟨Doc.hardline :: i0t, w0 ++ [x], by simp, by simp⟩
  · have hs' : startsWithLinebreak raw = false := by
      cases hb : startsWithLinebreak raw
      · rfl
      · exact absurd hb hs
    have hs2 : startsWithLinebreak raw 2 = false := by
      simp only [startsWithLinebreak, decide_eq_false_iff_not] at hs' ⊢
      omega
    rw [hs', hs2]
    simp only [Bool.false_eq_true, if_false]
    rw [set_last_append init0 [Doc.text (w0 ++ [x]), Doc.line] (by simp) Doc.hardline]
    exact ⟨init0, w0 ++ [x], by simp, by simp⟩

/-! ## C2 -/

/-- C2: outside pre content, a whitespace-only Text node prints as
nothing when empty, a collapsible line when it has whitespace but no
newline, one hard line at exactly one newline, and a doubled hard line at
two or more newlines; a non-empty Text node prints as the fill of its
split word documents, and when its leading or trailing whitespace run
(consisting of split characters) holds two or more newlines, the split
begins, or ends, with exactly a doubled hard line next to a nonempty
word, regardless of how many newlines the run holds. -/
theorem c2_text_whitespace_collapse_and_edge_bound :
    (∀ (fuel : Nat) (opts : Options) (ctx : Ctx) (s e : Nat) (raw : List Char) (o : Option Doc),
        ctx.insidePre = false → (∀ c ∈ raw, isWSjs c = true) →
        printNode (fuel + 1) opts ctx (Node.mk s e (NodeKind.text raw)) { ignoreNext := false, ignoreRange := false, svelteOptionsDoc := o } =
          Except.ok
            ((if 2 ≤ raw.count '\n' then Doc.concat [Doc.hardline, Doc.hardline]
              else if raw.count '\n' = 1 then Doc.hardline
              else if raw ≠ [] then Doc.line
              else str ""), { ignoreNext := false, ignoreRange := false, svelteOptionsDoc := o })) ∧
    (∀ (fuel : Nat) (opts : Options) (ctx : Ctx) (s e : Nat) (raw : List Char) (o : Option Doc),
        ctx.insidePre = false → jsTrim raw ≠ [] →
        printNode (fuel + 1) opts ctx (Node.mk s e (NodeKind.text raw)) { ignoreNext := false, ignoreRange := false, svelteOptionsDoc := o } =
          Except.ok (Doc.fill (splitTextToDocs raw), { ignoreNext := false, ignoreRange := false, svelteOptionsDoc := o })) ∧
    (∀ raw : List Char, jsTrim raw ≠ [] →
        (∀ c ∈ raw.takeWhile isWSjs, isSplitWS c = true) →
        2 ≤ leadingNewlines raw →
        ∃ w rest, splitTextToDocs raw = Doc.hardline :: Doc.hardline :: Doc.text w :: rest ∧
          w ≠ []) ∧
    (∀ raw : List Char, jsTrim raw ≠ [] →
        (∀ c ∈ raw.reverse.takeWhile isWSjs, isSplitWS c = true) →
        2 ≤ trailingNewlines raw →
        ∃ init w, splitTextToDocs raw = init ++ [Doc.text w, Doc.hardline, Doc.hardline] ∧
          w ≠ []) := by
  refine ⟨?_, ?_, splitTextToDocs_leading_double, splitTextToDocs_trailing_double⟩
  · intro fuel opts ctx s e raw o hpre hws
    simp only [printNode, gate_clean, Node.kind, Bool.false_eq_true, if_false]
    have htrim : jsTrim raw = [] := (jsTrim_nil_iff raw).mpr hws
    have h2iff := hasTwoNewlines_count raw hws
    simp only [textCase, hpre, Bool.not_false, if_true, htrim, List.length_nil]
    by_cases h2 : 2 ≤ raw.count '\n'
    · have hh : hasTwoNewlines raw = true := h2iff.mpr h2
      simp [hh, h2]
    · have hft : hasTwoNewlines raw = false := by
        cases hb : hasTwoNewlines raw
        · rfl
        · exact absurd (h2iff.mp hb) h2
      by_cases h1 : raw.count '\n' = 1
      · have hmem : ('\n') ∈ raw := List.count_pos_iff.mp (by omega)
        simp [hft, h1, h2, List.elem_eq_mem, hmem]
      · have h0 : raw.count '\n' = 0 := by
          rcases Nat.lt_or_ge (raw.count '\n') 2 with hlt | hge
          · omega
          · exact absurd hge h2
        have hmem : ('\n') ∉ raw := by
          intro hm
          have hcp : 0 < raw.count '\n' := List.count_pos_iff.mpr hm
          omega
        by_cases hnil : raw = []
        · subst hnil
          simp [hft]
        · have hlen : 0 < raw.length := List.length_pos.mpr hnil
          simp [hft, h1, h2, List.elem_eq_mem, hmem, hlen, hnil]
  · intro fuel opts ctx s e raw o hpre hne
    simp only [printNode, gate_clean, Node.kind, Bool.false_eq_true, if_false]
    simp [textCase, hpre, hne]

/-- Witness for C2: the doubled-hard-line collapse of an all-whitespace
text with two newlines, the leading edge of a text with three leading
newlines, and the trailing edge of a text with four trailing newlines. -/
theorem c2_witness :
    Ctx.base.insidePre = false ∧
    (∀ c ∈ S " \n \n ", isWSjs c = true) ∧
    printNode 1 sampleOpts Ctx.base (Node.mk 0 0 (NodeKind.text (S " \n \n "))) cleanState =
      Except.ok (Doc.concat [Doc.hardline, Doc.hardline], cleanState) ∧
    (∃ w rest,
      splitTextToDocs (S "\n\n\nfoo") =
        Doc.hardline :: Doc.hardline :: Doc.text w :: rest ∧ w ≠ []) ∧
    (∃ init w,
      splitTextToDocs (S "foo\n\n\n\n") =
        init ++ [Doc.text w, Doc.hardline, Doc.hardline] ∧ w ≠ []) := by
  refine ⟨rfl, by decide, ?_, ?_, ?_⟩
  · have h := c2_text_whitespace_collapse_and_edge_bound.1 0 sampleOpts Ctx.base 0 0
      (S " \n \n ") Option.none rfl (by decide)
    have hr : (if 2 ≤ (S " \n \n ").count '\n' then Doc.concat [Doc.hardline, Doc.hardline]
        else if (S " \n \n ").count '\n' = 1 then Doc.hardline
        else if (S " \n \n ") ≠ [] then Doc.line
        else str "") = Doc.concat [Doc.hardline, Doc.hardline] := rfl
    rw [hr] at h
    exact h
  · exact c2_text_whitespace_collapse_and_edge_bound.2.2.1 (S "\n\n\nfoo")
      (by decide) (by decide) (by decide)
  · exact c2_text_whitespace_collapse_and_edge_bound.2.2.2 (S "foo\n\n\n\n")
      (by decide) (by decide) (by decide)

end SveltePrinter

